import Mathlib

/-!
Verification of the extraction pipeline of `src/app.py` (ChatGPT share-page
extractor).  Strings are modelled as `List Char`; the regular-expression
operations of the source are modelled by explicit scanning functions with the
same match semantics.  Python exceptions are modelled by `Option`/`none`.
-/

set_option maxRecDepth 100000

abbrev Str := List Char

/-- ASCII lower-casing on character codes, modelling Python `str.lower` /
`re.IGNORECASE` folding for the ASCII patterns used in `app.py`. -/
def lowerN (n : Nat) : Nat := if 65 ≤ n ∧ n ≤ 90 then n + 32 else n

/-- Case-insensitive character comparison (ASCII fold). -/
def eqCI (a b : Char) : Bool := lowerN a.toNat = lowerN b.toNat

/-- Case-insensitive "pattern `pat` (given lower-case) matches at the head of
`s`". -/
def ciAt : Str → Str → Bool
  | [], _ => true
  | _ :: _, [] => false
  | p :: ps, c :: cs => eqCI p c && ciAt ps cs

/-- Case-sensitive literal match at the head of `s`. -/
def litAt : Str → Str → Bool
  | [], _ => true
  | _ :: _, [] => false
  | p :: ps, c :: cs => (p = c : Bool) && litAt ps cs

/-- First index `i` with `pos ≤ i < n` satisfying `p`, scanning upwards;
models the position loop of a regex search.  The fuel argument of the worker
is exactly `n - pos`, so the two formulations coincide. -/
def firstIdxFromGo (p : Nat → Bool) : Nat → Nat → Option Nat
  | 0, _ => none
  | fuel + 1, pos => if p pos then some pos else firstIdxFromGo p fuel (pos + 1)

def firstIdxFrom (n : Nat) (p : Nat → Bool) (pos : Nat) : Option Nat :=
  firstIdxFromGo p (n - pos) pos

theorem firstIdxFromGo_spec (p : Nat → Bool) :
    ∀ (fuel pos i : Nat), firstIdxFromGo p fuel pos = some i →
      pos ≤ i ∧ i < pos + fuel ∧ p i = true ∧ ∀ j, pos ≤ j → j < i → p j = false := by
  intro fuel
  induction fuel with
  | zero => intro pos i h; exact absurd h (by simp [firstIdxFromGo])
  | succ fuel ih =>
    intro pos i h
    rw [firstIdxFromGo] at h
    split at h
    · rename_i hp
      cases h
      exact ⟨Nat.le_refl _, by omega, hp, fun j h1 h2 => absurd h1 (Nat.not_le_of_lt h2)⟩
    · rename_i hp
      obtain ⟨h1, h2, h3, h4⟩ := ih (pos + 1) i h
      refine ⟨by omega, by omega, h3, fun j hj1 hj2 => ?_⟩
      rcases Nat.eq_or_lt_of_le hj1 with hj | hj
      · simpa [← hj] using hp
      · exact h4 j hj hj2

theorem firstIdxFromGo_none (p : Nat → Bool) :
    ∀ (fuel pos : Nat), firstIdxFromGo p fuel pos = none →
      ∀ j, pos ≤ j → j < pos + fuel → p j = false := by
  intro fuel
  induction fuel with
  | zero => intro pos _ j h1 h2; omega
  | succ fuel ih =>
    intro pos h j h1 h2
    rw [firstIdxFromGo] at h
    split at h
    · exact absurd h (by simp)
    · rename_i hp
      rcases Nat.eq_or_lt_of_le h1 with hj | hj
      · simpa [← hj] using hp
      · exact ih (pos + 1) h j hj (by omega)

theorem firstIdxFromGo_intro (p : Nat → Bool) :
    ∀ (fuel pos i : Nat), pos ≤ i → i < pos + fuel → p i = true →
      (∀ j, pos ≤ j → j < i → p j = false) → firstIdxFromGo p fuel pos = some i := by
  intro fuel
  induction fuel with
  | zero => intro pos i h1 h2; omega
  | succ fuel ih =>
    intro pos i h1 h2 h3 h4
    rw [firstIdxFromGo]
    rcases Nat.eq_or_lt_of_le h1 with he | hlt
    · subst he
      simp [h3]
    · rw [h4 pos (Nat.le_refl _) hlt]
      simp only [Bool.false_eq_true, if_false]
      exact ih (pos + 1) i hlt (by omega) h3 (fun j hj1 hj2 => h4 j (by omega) hj2)

theorem firstIdxFromGo_none_intro (p : Nat → Bool) :
    ∀ (fuel pos : Nat), (∀ j, pos ≤ j → j < pos + fuel → p j = false) →
      firstIdxFromGo p fuel pos = none := by
  intro fuel
  induction fuel with
  | zero => intro pos _; rfl
  | succ fuel ih =>
    intro pos h
    rw [firstIdxFromGo, h pos (Nat.le_refl _) (by omega)]
    simp only [Bool.false_eq_true, if_false]
    exact ih (pos + 1) (fun j hj1 hj2 => h j (by omega) (by omega))

theorem firstIdxFrom_spec (n : Nat) (p : Nat → Bool) (pos i : Nat)
    (h : firstIdxFrom n p pos = some i) :
    pos ≤ i ∧ i < n ∧ p i = true ∧ ∀ j, pos ≤ j → j < i → p j = false := by
  obtain ⟨h1, h2, h3, h4⟩ := firstIdxFromGo_spec p (n - pos) pos i h
  exact ⟨h1, by omega, h3, h4⟩

theorem firstIdxFrom_none (n : Nat) (p : Nat → Bool) (pos : Nat)
    (h : firstIdxFrom n p pos = none) :
    ∀ j, pos ≤ j → j < n → p j = false := by
  intro j h1 h2
  exact firstIdxFromGo_none p (n - pos) pos h j h1 (by omega)

theorem firstIdxFrom_intro (n : Nat) (p : Nat → Bool) (pos i : Nat)
    (h1 : pos ≤ i) (h2 : i < n) (h3 : p i = true)
    (h4 : ∀ j, pos ≤ j → j < i → p j = false) :
    firstIdxFrom n p pos = some i :=
  firstIdxFromGo_intro p (n - pos) pos i h1 (by omega) h3 h4

theorem firstIdxFrom_none_intro (n : Nat) (p : Nat → Bool) (pos : Nat)
    (h : ∀ j, pos ≤ j → j < n → p j = false) :
    firstIdxFrom n p pos = none :=
  firstIdxFromGo_none_intro p (n - pos) pos (fun j hj1 hj2 => h j hj1 (by omega))

/-- Index of the first occurrence of character `c` in `s`. -/
def idxOfChar (c : Char) : Str → Option Nat
  | [] => none
  | a :: rest => if a = c then some 0 else (idxOfChar c rest).map (· + 1)

/-- Index of the first case-insensitive occurrence of `pat` in `s`. -/
def findCI (pat : Str) : Str → Option Nat
  | [] => if pat.isEmpty then some 0 else none
  | s@(_ :: rest) => if ciAt pat s then some 0 else (findCI pat rest).map (· + 1)

/-- Python whitespace: the exact character set of `str.strip()` with no
arguments and of the regex class `\s` on `str` patterns (CPython accepts the
same characters for both, namely those with `str.isspace()`): U+0009-U+000D,
U+001C-U+0020, U+0085, U+00A0, U+1680, U+2000-U+200A, U+2028, U+2029,
U+202F, U+205F and U+3000. -/
def isPyWs (c : Char) : Bool :=
  decide (9 ≤ c.toNat ∧ c.toNat ≤ 13) || decide (28 ≤ c.toNat ∧ c.toNat ≤ 32) ||
  decide (c.toNat = 133) || decide (c.toNat = 160) || decide (c.toNat = 5760) ||
  decide (8192 ≤ c.toNat ∧ c.toNat ≤ 8202) || decide (c.toNat = 8232) ||
  decide (c.toNat = 8233) || decide (c.toNat = 8239) || decide (c.toNat = 8287) ||
  decide (c.toNat = 12288)

/-- ASCII text free of `&`.  On such input the character-level model used
here coincides with CPython exactly: `html.unescape` is the identity (no
entity can start), the regex classes `\w` and `\d` reduce to their ASCII
parts, and `re.IGNORECASE` folding is plain ASCII case (the exotic folds
ı/İ→i, ſ→s, U+212A→k involve non-ASCII characters only). -/
def asciiNoAmp (s : Str) : Bool := s.all (fun c => decide (c.toNat < 128 ∧ c ≠ '&'))

/-- Models `re.sub(r"<script[^>]*>.*?</script>", "", chunk, flags=DOTALL|IGNORECASE)`
(and the analogous `<style>` removal): at a case-insensitive occurrence of
`openTag`, the run up to the first `>` is the tag head, and the block extends
lazily to the first case-insensitive occurrence of `closeTag`. -/
def stripBlocksGo (openTag closeTag : Str) : Nat → Str → Str
  | 0, _ => []
  | _, [] => []
  | fuel + 1, c :: rest =>
    if ciAt openTag (c :: rest) then
      match idxOfChar '>' ((c :: rest).drop openTag.length) with
      | none => c :: stripBlocksGo openTag closeTag fuel rest
      | some g =>
        match findCI closeTag ((c :: rest).drop (openTag.length + g + 1)) with
        | none => c :: stripBlocksGo openTag closeTag fuel rest
        | some j =>
          stripBlocksGo openTag closeTag fuel
            ((c :: rest).drop (openTag.length + g + 1 + j + closeTag.length))
    else c :: stripBlocksGo openTag closeTag fuel rest

def stripBlocks (openTag closeTag : Str) (s : Str) : Str :=
  stripBlocksGo openTag closeTag (s.length + 1) s

/-- Models `re.sub(r"<[^>]+>", "", chunk)`: a `<`, at least one non-`>`
character, then the first `>`. -/
def stripTagsGo : Nat → Str → Str
  | 0, _ => []
  | _, [] => []
  | fuel + 1, c :: rest =>
    if c = '<' then
      match idxOfChar '>' rest with
      | some j =>
        if 1 ≤ j then stripTagsGo fuel (rest.drop (j + 1))
        else c :: stripTagsGo fuel rest
      | none => c :: stripTagsGo fuel rest
    else c :: stripTagsGo fuel rest

def stripTags (s : Str) : Str := stripTagsGo (s.length + 1) s

/-- Hex digit value. -/
def hexDigit (c : Char) : Option Nat :=
  if '0' ≤ c ∧ c ≤ '9' then some (c.toNat - 48)
  else if 'a' ≤ c ∧ c ≤ 'f' then some (c.toNat - 87)
  else if 'A' ≤ c ∧ c ≤ 'F' then some (c.toNat - 55)
  else none

def decDigit (c : Char) : Option Nat :=
  if '0' ≤ c ∧ c ≤ '9' then some (c.toNat - 48) else none

def digitsToNat (base : Nat) (digit : Char → Option Nat) (s : Str) : Option Nat :=
  s.foldl (fun acc c => match acc, digit c with
    | some a, some d => if a < 2000000 then some (base * a + d) else some a
    | _, _ => none) (some 0)

/-- Character for a numeric character reference; invalid code points give
U+FFFD, as CPython does. -/
def refChar (n : Nat) : Char :=
  if n < 55296 ∨ (57344 ≤ n ∧ n < 1114112) then Char.ofNat n else Char.ofNat 65533

/-- Decode one character reference after a `&`; models the core cases of
`html.unescape` (the standard named references used by share pages, and
`&#...;` / `&#x...;` numeric references). -/
def decEntity (s : Str) : Option (Char × Nat) :=
  if litAt "amp;".data s then some ('&', 4)
  else if litAt "lt;".data s then some ('<', 3)
  else if litAt "gt;".data s then some ('>', 3)
  else if litAt "quot;".data s then some ('"', 5)
  else if litAt "apos;".data s then some ('\'', 5)
  else if litAt "nbsp;".data s then some (Char.ofNat 160, 5)
  else if litAt "#x".data s ∨ litAt "#X".data s then
    let ds := (s.drop 2).takeWhile (fun c => (hexDigit c).isSome)
    if ds ≠ [] ∧ litAt ";".data (s.drop (2 + ds.length)) then
      (digitsToNat 16 hexDigit ds).map (fun n => (refChar n, 2 + ds.length + 1))
    else none
  else if litAt "#".data s then
    let ds := (s.drop 1).takeWhile (fun c => (decDigit c).isSome)
    if ds ≠ [] ∧ litAt ";".data (s.drop (1 + ds.length)) then
      (digitsToNat 10 decDigit ds).map (fun n => (refChar n, 1 + ds.length + 1))
    else none
  else none

/-- Models `html.unescape` (single pass over the text, replacing each
recognized character reference). -/
def unescapeGo : Nat → Str → Str
  | 0, _ => []
  | _, [] => []
  | fuel + 1, c :: rest =>
    if c = '&' then
      match decEntity rest with
      | some (d, k) => d :: unescapeGo fuel (rest.drop k)
      | none => c :: unescapeGo fuel rest
    else c :: unescapeGo fuel rest

def unescape (s : Str) : Str := unescapeGo (s.length + 1) s

/-- Models `.replace("\r\n", "\n").replace("\r", "\n")`. -/
def normNewlinesGo : Nat → Str → Str
  | 0, _ => []
  | _, [] => []
  | fuel + 1, c :: rest =>
    if c = '\r' then
      '\n' :: normNewlinesGo fuel (if litAt "\n".data rest then rest.drop 1 else rest)
    else c :: normNewlinesGo fuel rest

def normNewlines (s : Str) : Str := normNewlinesGo (s.length + 1) s

def isSpTab (c : Char) : Bool := c = ' ' || c = '\t'

/-- Models `re.sub(r"[ \t]+", " ", chunk)`. -/
def collapseSpacesGo : Nat → Str → Str
  | 0, _ => []
  | _, [] => []
  | fuel + 1, c :: rest =>
    if isSpTab c then ' ' :: collapseSpacesGo fuel (rest.dropWhile isSpTab)
    else c :: collapseSpacesGo fuel rest

def collapseSpaces (s : Str) : Str := collapseSpacesGo (s.length + 1) s

/-- Models `re.sub(r"\n{3,}", "\n\n", chunk)`. -/
def collapseNl3Go : Nat → Str → Str
  | 0, _ => []
  | _, [] => []
  | fuel + 1, c :: rest =>
    if c = '\n' then
      let run := rest.takeWhile (fun x => x = '\n')
      (if 2 ≤ run.length then ['\n', '\n'] else '\n' :: run) ++
        collapseNl3Go fuel (rest.dropWhile (fun x => x = '\n'))
    else c :: collapseNl3Go fuel rest

def collapseNl3 (s : Str) : Str := collapseNl3Go (s.length + 1) s

/-- Models Python `str.strip()`. -/
def pyStrip (s : Str) : Str :=
  ((s.dropWhile isPyWs).reverse.dropWhile isPyWs).reverse

/-- Models Python `str.strip(chars)` for an explicit character set. -/
def stripSet (cs : List Char) (s : Str) : Str :=
  ((s.dropWhile (fun c => cs.contains c)).reverse.dropWhile (fun c => cs.contains c)).reverse

/-- Models `_strip_html` of `src/app.py` (lines 255-271). -/
def _strip_html (chunk : Str) : Str :=
  let c1 := stripBlocks "<script".data "</script>".data chunk
  let c2 := stripBlocks "<style".data "</style>".data c1
  let c3 := stripTags c2
  let c4 := unescape c3
  let c5 := normNewlines c4
  let c6 := collapseSpaces c5
  let c7 := collapseNl3 c6
  pyStrip c7

/-- Try to match `ChatGPT\s*说：.*` (IGNORECASE) at the head of `s`; on success
return the number of consumed characters (the match runs to end of line, since
`.` does not cross `\n`). -/
def tryCSays (s : Str) : Option Nat :=
  if ciAt "chatgpt".data s then
    let ws := (s.drop 7).takeWhile isPyWs
    if litAt "说：".data (s.drop (7 + ws.length)) then
      let lineRest := (s.drop (7 + ws.length + 2)).takeWhile (fun c => c ≠ '\n')
      some (7 + ws.length + 2 + lineRest.length)
    else none
  else none

/-- Models `re.sub(r"ChatGPT\s*说：.*", "", text, flags=re.I)`. -/
def removeCSaysGo : Nat → Str → Str
  | 0, _ => []
  | _, [] => []
  | fuel + 1, c :: rest =>
    match tryCSays (c :: rest) with
    | some k => removeCSaysGo fuel ((c :: rest).drop k)
    | none => c :: removeCSaysGo fuel rest

def removeCSays (s : Str) : Str := removeCSaysGo (s.length + 1) s

/-- Try to match `^\s*pat.*$` (MULTILINE, optionally IGNORECASE) at a
line-start position: greedy `\s*` may cross newlines, then the (non-blank)
pattern, then the rest of that line.  Returns the consumed length. -/
def tryNoise (pat : Str) (s : Str) : Option Nat :=
  let ws := s.takeWhile isPyWs
  if ciAt pat (s.drop ws.length) then
    let lineRest := (s.drop (ws.length + pat.length)).takeWhile (fun c => c ≠ '\n')
    some (ws.length + pat.length + lineRest.length)
  else none

/-- Models `re.sub(r"(?m)^\s*pat.*$", "", text)`: scan left to right, a match
may start only at a line start. -/
def rnlGo (pat : Str) : Nat → Bool → Str → Str
  | 0, _, _ => []
  | _, _, [] => []
  | fuel + 1, atStart, c :: rest =>
    if atStart then
      match tryNoise pat (c :: rest) with
      | some k => rnlGo pat fuel false ((c :: rest).drop k)
      | none => c :: rnlGo pat fuel (c = '\n') rest
    else c :: rnlGo pat fuel (c = '\n') rest

def rnl (pat : Str) (atStart : Bool) (s : Str) : Str :=
  rnlGo pat (s.length + 1) atStart s

/-- Models `_post_clean` of `src/app.py` (lines 273-282). -/
def _post_clean (text : Str) : Str :=
  let t1 := removeCSays text
  let t2 := rnl "复制链接".data true t1
  let t3 := rnl "open in chatgpt".data true t2
  let t4 := rnl "copy link".data true t3
  let t5 := rnl "regenerate".data true t4
  let t6 := rnl "模型:".data true t5
  let t7 := rnl "model:".data true t6
  pyStrip (stripSet [' ', '<', '>'] t7)

/-- The full normalization `_post_clean(_strip_html(...))` applied to message
chunks throughout `src/app.py`. -/
def normalizeText (s : Str) : Str := _post_clean (_strip_html s)

/-- Models one match attempt of `ROLE_MARKER = data-message-author-role="(user|assistant)"`
(IGNORECASE) at position `i`: returns the lower-cased group and the match end,
as the source computes `m.group(1).lower()` and `m.end()`. -/
def roleMarkerAt (s : Str) (i : Nat) : Option (Str × Nat) :=
  let pre := "data-message-author-role=\"".data
  if ciAt pre (s.drop i) then
    if ciAt "user\"".data (s.drop (i + 26)) then some ("user".data, i + 31)
    else if ciAt "assistant\"".data (s.drop (i + 26)) then some ("assistant".data, i + 36)
    else none
  else none

/-- Models `ROLE_MARKER.search(raw_html, pos)`: first marker at index `≥ pos`. -/
def findMarker (s : Str) (pos : Nat) : Option (Nat × Str × Nat) :=
  match firstIdxFrom s.length (fun i => (roleMarkerAt s i).isSome) pos with
  | none => none
  | some i =>
    match roleMarkerAt s i with
    | some (r, e) => some (i, r, e)
    | none => none

/-- Models `raw_html.find(">", j)`. -/
def findGt (s : Str) (j : Nat) : Option Nat :=
  firstIdxFrom s.length (fun i => s.getD i ' ' = '>') j

/-- Python slice `s[a:b]`. -/
def pySlice (s : Str) (a b : Nat) : Str := (s.drop a).take (b - a)

/-- Position where the current message's content ends: start of the next
marker occurrence, or the end of the document. -/
def nextStop (raw : Str) (startContent : Nat) : Nat :=
  match findMarker raw startContent with
  | some (i', _, _) => i'
  | none => raw.length

/-- The scanning loop of `extract_messages_html` (src/app.py lines 284-304):
slice from the `>` closing the marker's tag to the next marker (or end),
normalize, and keep non-empty results.  One fuel unit per marker hit; the
scan position strictly increases, so `raw.length + 1` units always suffice. -/
def extractLoopGo (raw : Str) : Nat → Nat → List (Str × Str)
  | 0, _ => []
  | fuel + 1, pos =>
    match findMarker raw pos with
    | none => []
    | some (_, role, mEnd) =>
      let startContent := (findGt raw mEnd).getD mEnd + 1
      let endContent := nextStop raw startContent
      let text := normalizeText (pySlice raw startContent endContent)
      if text = [] then extractLoopGo raw fuel endContent
      else (role, text) :: extractLoopGo raw fuel endContent

/-- Models `extract_messages_html` of src/app.py. -/
def extract_messages_html (raw : Str) : List (Str × Str) :=
  extractLoopGo raw (raw.length + 1) 0

/-- All role-marker occurrences of `raw` at positions `≥ pos`, in document
order, with their roles and match ends. -/
def markerOccsFrom (raw : Str) (pos : Nat) : List (Nat × Str × Nat) :=
  (List.range raw.length).filterMap (fun i =>
    if pos ≤ i then (roleMarkerAt raw i).map (fun x => (i, x.1, x.2)) else none)

/-- All role-marker occurrences of the document. -/
def markerOccs (raw : Str) : List (Nat × Str × Nat) := markerOccsFrom raw 0

/-- Well-formedness of a run of marker occurrences: each marker's enclosing
opening tag is closed by some later `>`, and for two consecutive markers that
`>` comes before the next marker starts. -/
def wfOccs (raw : Str) : List (Nat × Str × Nat) → Bool
  | [] => true
  | [(_, _, e)] => (findGt raw e).isSome
  | (_, _, e) :: (i', r', e') :: rest =>
    match findGt raw e with
    | some g => decide (g < i') && wfOccs raw ((i', r', e') :: rest)
    | none => false

/-- Specification-side description of the Anchor Strategy (spec §4.3): one
candidate message per marker occurrence, whose raw span runs from just after
the `>` closing the marker's tag to the start of the next occurrence (or end
of document), normalized. -/
def anchorSpec (raw : Str) : List (Nat × Str × Nat) → List (Str × Str)
  | [] => []
  | (_, r, e) :: rest =>
    let g := (findGt raw e).getD e
    let stop := match rest with
      | [] => raw.length
      | (i', _, _) :: _ => i'
    (r, normalizeText (pySlice raw (g + 1) stop)) :: anchorSpec raw rest

/-- Match `\s*$` (MULTILINE) at the head of `s`: the longest whitespace run
whose end position is the end of the string or sits just before a `\n`.
Returns the consumed length. -/
def wsToEolLen (s : Str) : Option Nat :=
  let w := s.takeWhile isPyWs
  if s.drop w.length = [] then some w.length
  else
    match idxOfChar '\n' w.reverse with
    | some j => some (w.length - 1 - j)
    | none => none

/-- Match `\n-{2,}\n` at the head of `s` (first branch of the block-separator
pattern in `extract_messages_plain`). -/
def sepAt1 (s : Str) : Option Nat :=
  match s with
  | '\n' :: t =>
    let ds := t.takeWhile (fun c => c = '-')
    if 2 ≤ ds.length ∧ litAt "\n".data (t.drop ds.length) then some (1 + ds.length + 1)
    else none
  | _ => none

/-- Match `^\s*#\d+\s*$` at a line-start position (second branch). -/
def sepAt2 (s : Str) : Option Nat :=
  let ws := s.takeWhile isPyWs
  match s.drop ws.length with
  | '#' :: t =>
    let ds := t.takeWhile (fun c => (decDigit c).isSome)
    if ds ≠ [] then (wsToEolLen (t.drop ds.length)).map (fun k => ws.length + 1 + ds.length + k)
    else none
  | _ => none

/-- Match `^\s*(用户|助手)[:：]\s*$` at a line-start position (third branch);
also returns the captured group. -/
def sepAt3 (s : Str) : Option (Nat × Str) :=
  let ws := s.takeWhile isPyWs
  let t := s.drop ws.length
  match (if litAt "用户".data t then some "用户".data
         else if litAt "助手".data t then some "助手".data else none) with
  | none => none
  | some w =>
    match t.drop 2 with
    | c :: t2 =>
      if c = ':' ∨ c = '：' then (wsToEolLen t2).map (fun k => (ws.length + 2 + 1 + k, w))
      else none
    | [] => none

/-- Leftmost match of the block-separator pattern
`\n-{2,}\n|^\s*#\d+\s*$|^\s*(用户|助手)[:：]\s*$` (M|I): offset, length, and
the value of capture group 1 (absent when branch 1 or 2 matched, as in
Python where `re.split` then inserts `None`). -/
def findSep (atStart : Bool) (s : Str) : Option (Nat × Nat × Option Str) :=
  match s with
  | [] => none
  | c :: rest =>
    match sepAt1 s with
    | some k => some (0, k, none)
    | none =>
      match (if atStart then sepAt2 s else none) with
      | some k => some (0, k, none)
      | none =>
        match (if atStart then sepAt3 s else none) with
        | some (k, w) => some (0, k, some w)
        | none => (findSep (c = '\n') rest).map (fun x => (x.1 + 1, x.2.1, x.2.2))

/-- Models `re.split` with the block-separator pattern: text parts are `some`,
and each match contributes its group-1 value (`none` for the group-less
branches, i.e. Python's `None`). -/
def sepSplitGo : Nat → Bool → Str → List (Option Str)
  | 0, _, s => [some s]
  | fuel + 1, atStart, s =>
    match findSep atStart s with
    | none => [some s]
    | some (o, k, g) =>
      some (s.take o) :: g ::
        sepSplitGo fuel (s.getD (o + k - 1) ' ' = '\n') (s.drop (o + k))

def sepSplit (atStart : Bool) (s : Str) : List (Option Str) :=
  sepSplitGo (s.length + 1) atStart s

/-- First run of two-or-more newlines: offset and run length. -/
def findNl2 : Str → Option (Nat × Nat)
  | [] => none
  | '\n' :: '\n' :: rest => some (0, 2 + (rest.takeWhile (fun c => c = '\n')).length)
  | _ :: rest => (findNl2 rest).map (fun x => (x.1 + 1, x.2))

/-- Models `re.split(r"\n{2,}", txt)`. -/
def blankSplitGo : Nat → Str → List Str
  | 0, s => [s]
  | fuel + 1, s =>
    match findNl2 s with
    | none => [s]
    | some (o, k) => s.take o :: blankSplitGo fuel (s.drop (o + k))

def blankSplit (s : Str) : List Str := blankSplitGo (s.length + 1) s

/-- Python word character (`\w`): exact on ASCII (`[A-Za-z0-9_]`).  Every
non-ASCII character is treated as a word character, which agrees with
Python's Unicode `\w` on letters, digits and CJK but over-approximates it
on non-ASCII symbols and punctuation; the claim theorem that depends on
`\b` boundaries therefore confines its input to ASCII (`asciiNoAmp`),
where the model is exact. -/
def isWordChar (c : Char) : Bool :=
  ('a' ≤ c && c ≤ 'z') || ('A' ≤ c && c ≤ 'Z') || ('0' ≤ c && c ≤ '9') ||
    c = '_' || 128 ≤ c.toNat

/-- Models `re.search(r"\bascii\b|cjk", b, flags=re.I)`. -/
def kwSearch (ascii cjk : Str) (s : Str) : Bool :=
  (List.range (s.length + 1)).any fun i =>
    (ciAt ascii (s.drop i) &&
      (decide (i = 0) || !isWordChar (s.getD (i - 1) ' ')) &&
      !isWordChar (s.getD (i + ascii.length) ' ')) ||
    litAt cjk (s.drop i)

def hasAssistantKw (s : Str) : Bool := kwSearch "assistant".data "助手".data s

def hasUserKw (s : Str) : Bool := kwSearch "user".data "用户".data s

def toggleRole (r : Str) : Str :=
  if r = "user".data then "assistant".data else "user".data

/-- The block loop of `extract_messages_plain`: strip each block, drop short
ones, set the role from a keyword when present, toggle after each emitted
block.  A `none` block is Python's `None` inserted by `re.split`, on which
`b.strip()` raises `AttributeError` — modelled as `none`. -/
def plainLoop : List (Option Str) → Str → Option (List (Str × Str))
  | [], _ => some []
  | none :: _, _ => none
  | some b :: rest, role =>
    let b' := pyStrip b
    if b' = [] ∨ b'.length < 8 then plainLoop rest role
    else
      let role' := if hasAssistantKw b' then "assistant".data
        else if hasUserKw b' then "user".data else role
      match plainLoop rest (toggleRole role') with
      | none => none
      | some tl => some ((role', b') :: tl)

/-- Models `extract_messages_plain` of src/app.py (lines 306-333); `none` is
the `AttributeError` raised when a group-less separator branch matched and
`re.split` inserted `None` into the block list. -/
def plainBlocks (txt : Str) : List (Option Str) :=
  if (sepSplit true txt).length < 2 then (blankSplit txt).map some else sepSplit true txt

def extract_messages_plain (raw : Str) : Option (List (Str × Str)) :=
  if _strip_html raw = [] ∨ (_strip_html raw).length < 50 then some []
  else
    match plainLoop (plainBlocks (_strip_html raw)) "user".data with
    | none => none
    | some results => some (if 2 ≤ results.length then results else [])

/-- Models `re.findall(r"<script[^>]*>(.*?)</script>", raw, DOTALL|IGNORECASE)`:
the captured script bodies, in order. -/
def findScriptsGo : Nat → Str → List Str
  | 0, _ => []
  | _, [] => []
  | fuel + 1, c :: rest =>
    if ciAt "<script".data (c :: rest) then
      match idxOfChar '>' ((c :: rest).drop 7) with
      | none => findScriptsGo fuel rest
      | some g =>
        match findCI "</script>".data ((c :: rest).drop (7 + g + 1)) with
        | none => findScriptsGo fuel rest
        | some j =>
          pySlice (c :: rest) (7 + g + 1) (7 + g + 1 + j) ::
            findScriptsGo fuel ((c :: rest).drop (7 + g + 1 + j + 9))
    else findScriptsGo fuel rest

def findScripts (s : Str) : List Str := findScriptsGo (s.length + 1) s

/-- Match of `"role"\s*:\s*"(user|assistant)"` at the head of `s`
(case-sensitive coarse probe of `extract_messages_json`). -/
def roleProbeAt (s : Str) : Bool :=
  litAt "\"role\"".data s &&
  (let t := (s.drop 6).dropWhile isPyWs
   litAt ":".data t &&
   (let u := (t.drop 1).dropWhile isPyWs
    (litAt "\"user\"".data u || litAt "\"assistant\"".data u)))

/-- Models `re.search(r'"role"\s*:\s*"(user|assistant)"', sc)`. -/
def hasRoleProbe (s : Str) : Bool :=
  (List.range (s.length + 1)).any (fun i => roleProbeAt (s.drop i))

/-- Match `\x7b"role"\s*:\s*"(user|assistant)"` at the head of `s`: returns the
captured role and the consumed length. -/
def msgHeadAt (s : Str) : Option (Str × Nat) :=
  if litAt "\x7b\"role\"".data s then
    let w1 := (s.drop 7).takeWhile isPyWs
    if litAt ":".data (s.drop (7 + w1.length)) then
      let p := 7 + w1.length + 1
      let q := p + ((s.drop p).takeWhile isPyWs).length
      if litAt "\"user\"".data (s.drop q) then some ("user".data, q + 6)
      else if litAt "\"assistant\"".data (s.drop q) then some ("assistant".data, q + 11)
      else none
    else none
  else none

/-- Match the content alternation `(\x7b.*?\x7d|\[.*?\]|".*?")` (DOTALL, lazy) at
the head of `s`: the matched text including delimiters, and its length. -/
def contentValAt (s : Str) : Option (Str × Nat) :=
  match s with
  | '\x7b' :: t =>
    match idxOfChar '\x7d' t with
    | some j => some ('\x7b' :: (t.take j ++ ['\x7d']), j + 2)
    | none => none
  | '[' :: t =>
    match idxOfChar ']' t with
    | some j => some ('[' :: (t.take j ++ [']']), j + 2)
    | none => none
  | '"' :: t =>
    match idxOfChar '"' t with
    | some j => some ('"' :: (t.take j ++ ['"']), j + 2)
    | none => none
  | _ => none

/-- Match `"content"\s*:\s*VALUE` at offset `off` of `s`. -/
def tryContentAt (s : Str) (off : Nat) : Option (Str × Nat) :=
  if litAt "\"content\"".data (s.drop off) then
    let w1 := (s.drop (off + 9)).takeWhile isPyWs
    if litAt ":".data (s.drop (off + 9 + w1.length)) then
      let p := off + 9 + w1.length + 1
      let q := p + ((s.drop p).takeWhile isPyWs).length
      match contentValAt (s.drop q) with
      | some (content, len) => some (content, q + len)
      | none => none
    else none
  else none

/-- The lazy bounded gap `.{0,2000}?` before `"content"`: try offsets
`off, off+1, ...` while fuel lasts (2001 attempts in all). -/
def gapScan (s : Str) (off : Nat) : Nat → Option (Str × Nat)
  | 0 => none
  | fuel + 1 =>
    match tryContentAt s off with
    | some r => some r
    | none => gapScan s (off + 1) fuel

/-- One match attempt of the message pattern
`\x7b"role"\s*:\s*"(user|assistant)".\x7b0,2000\x7d?"content"\s*:\s*(...)` at the head
of `s`: role, raw content text, and total match length. -/
def msgAt (s : Str) : Option (Str × Str × Nat) :=
  match msgHeadAt s with
  | none => none
  | some (role, p) =>
    match gapScan s p 2001 with
    | some (content, e) => some (role, content, e)
    | none => none

/-- JSON values as produced by `json.loads`.  Numbers are modelled as integers;
float syntax is treated as a parse failure (no claim exercises float
payloads), which sends the source down its fallback path. -/
inductive JVal where
  | jnull : JVal
  | jbool : Bool → JVal
  | jnum : Int → JVal
  | jstr : Str → JVal
  | jarr : List JVal → JVal
  | jobj : List (Str × JVal) → JVal

def jsonWsChar (c : Char) : Bool := c = ' ' || c = '\t' || c = '\n' || c = '\r'

/-- JSON string body after the opening quote (fuel-driven); models the strict
`json.loads` rules: control characters are rejected, standard escapes and
`\uXXXX` are decoded. -/
def parseStrBody : Nat → Str → Option (Str × Str)
  | 0, _ => none
  | fuel + 1, s =>
    match s with
    | [] => none
    | '"' :: rest => some ([], rest)
    | '\\' :: e :: rest =>
      match e with
      | '"' => (parseStrBody fuel rest).map (fun x => ('"' :: x.1, x.2))
      | '\\' => (parseStrBody fuel rest).map (fun x => ('\\' :: x.1, x.2))
      | '/' => (parseStrBody fuel rest).map (fun x => ('/' :: x.1, x.2))
      | 'b' => (parseStrBody fuel rest).map (fun x => (Char.ofNat 8 :: x.1, x.2))
      | 'f' => (parseStrBody fuel rest).map (fun x => (Char.ofNat 12 :: x.1, x.2))
      | 'n' => (parseStrBody fuel rest).map (fun x => ('\n' :: x.1, x.2))
      | 'r' => (parseStrBody fuel rest).map (fun x => ('\r' :: x.1, x.2))
      | 't' => (parseStrBody fuel rest).map (fun x => ('\t' :: x.1, x.2))
      | 'u' =>
        let hx := rest.take 4
        if hx.length = 4 ∧ hx.all (fun c => (hexDigit c).isSome) then
          match digitsToNat 16 hexDigit hx with
          | some n => (parseStrBody fuel (rest.drop 4)).map (fun x => (refChar n :: x.1, x.2))
          | none => none
        else none
      | _ => none
    | c :: rest =>
      if c.toNat < 32 then none
      else (parseStrBody fuel rest).map (fun x => (c :: x.1, x.2))

/-- JSON integer literal (strict `json.loads` grammar, floats rejected). -/
def parseJNum (s : Str) : Option (Int × Str) :=
  let (neg, t) := match s with
    | '-' :: t => (true, t)
    | _ => (false, s)
  let ds := t.takeWhile (fun c => (decDigit c).isSome)
  if ds = [] then none
  else if 2 ≤ ds.length ∧ ds.getD 0 ' ' = '0' then none
  else
    match t.drop ds.length with
    | '.' :: _ => none
    | 'e' :: _ => none
    | 'E' :: _ => none
    | rest =>
      match digitsToNat 10 decDigit ds with
      | some n => some (if neg then -(n : Int) else (n : Int), rest)
      | none => none

mutual

/-- Fuel-driven JSON value parser modelling `json.loads`. -/
def parseVal : Nat → Str → Option (JVal × Str)
  | 0, _ => none
  | fuel + 1, s =>
    let t := s.dropWhile jsonWsChar
    if litAt "null".data t then some (.jnull, t.drop 4)
    else if litAt "true".data t then some (.jbool true, t.drop 4)
    else if litAt "false".data t then some (.jbool false, t.drop 5)
    else
      match t with
      | '"' :: r => (parseStrBody (r.length + 1) r).map (fun x => (.jstr x.1, x.2))
      | '[' :: r =>
        match (r.dropWhile jsonWsChar) with
        | ']' :: r2 => some (.jarr [], r2)
        | _ => (parseArrItems fuel r).map (fun x => (.jarr x.1, x.2))
      | '\x7b' :: r =>
        match (r.dropWhile jsonWsChar) with
        | '\x7d' :: r2 => some (.jobj [], r2)
        | _ => (parseObjItems fuel r).map (fun x => (.jobj x.1, x.2))
      | _ => (parseJNum t).map (fun x => (.jnum x.1, x.2))

/-- Comma-separated array items, ending at `]`. -/
def parseArrItems : Nat → Str → Option (List JVal × Str)
  | 0, _ => none
  | fuel + 1, s =>
    match parseVal fuel s with
    | none => none
    | some (v, rest) =>
      match rest.dropWhile jsonWsChar with
      | ',' :: r2 => (parseArrItems fuel r2).map (fun x => (v :: x.1, x.2))
      | ']' :: r2 => some ([v], r2)
      | _ => none

/-- Comma-separated `"key": value` members, ending at `\x7d`. -/
def parseObjItems : Nat → Str → Option (List (Str × JVal) × Str)
  | 0, _ => none
  | fuel + 1, s =>
    match s.dropWhile jsonWsChar with
    | '"' :: r =>
      match parseStrBody (r.length + 1) r with
      | none => none
      | some (key, rest) =>
        match rest.dropWhile jsonWsChar with
        | ':' :: r2 =>
          match parseVal fuel r2 with
          | none => none
          | some (v, rest2) =>
            match rest2.dropWhile jsonWsChar with
            | ',' :: r3 => (parseObjItems fuel r3).map (fun x => ((key, v) :: x.1, x.2))
            | '\x7d' :: r3 => some ([(key, v)], r3)
            | _ => none
        | _ => none
    | _ => none

end

/-- Models `json.loads` on a fragment: whole-input parse or failure. -/
def json_loads (s : Str) : Option JVal :=
  match parseVal (2 * s.length + 2) s with
  | some (v, rest) => if rest.dropWhile jsonWsChar = [] then some v else none
  | none => none

/-- Python truthiness (`if x`) of a JSON value. -/
def jTruthy : JVal → Bool
  | .jnull => false
  | .jbool b => b
  | .jnum n => !(n = 0 : Bool)
  | .jstr s => !s.isEmpty
  | .jarr l => !l.isEmpty
  | .jobj l => !l.isEmpty

/-- Escape a character for Python `repr` of a string (approximation of CPython:
backslash, quote, and the common control characters). -/
def pyReprEsc (c : Char) : Str :=
  if c = '\\' then ['\\', '\\']
  else if c = '\'' then ['\\', '\'']
  else if c = '\n' then ['\\', 'n']
  else if c = '\r' then ['\\', 'r']
  else if c = '\t' then ['\\', 't']
  else [c]

/-- Python `repr` of a JSON value (approximation: strings always use single
quotes).  Used by `str()` on lists/dicts. -/
def pyRepr (v : JVal) : Str :=
  match v with
  | .jnull => "None".data
  | .jbool true => "True".data
  | .jbool false => "False".data
  | .jnum n => (toString n).data
  | .jstr s => '\'' :: (s.flatMap pyReprEsc ++ ['\''])
  | .jarr l =>
    '[' :: (List.intercalate ", ".data (l.attach.map (fun x => pyRepr x.1)) ++ [']'])
  | .jobj l =>
    '\x7b' :: (List.intercalate ", ".data
      (l.attach.map (fun x => pyRepr (.jstr x.1.1) ++ ": ".data ++ pyRepr x.1.2)) ++ ['\x7d'])
termination_by sizeOf v
decreasing_by
  all_goals first
    | (have hm := List.sizeOf_lt_of_mem x.2; simp_all; omega)
    | (obtain ⟨⟨k, w⟩, hx⟩ := x; have hm := List.sizeOf_lt_of_mem hx; simp_all; omega)

/-- Python `str()` of a JSON value. -/
def pyStr (v : JVal) : Str :=
  match v with
  | .jstr s => s
  | .jnull => "None".data
  | .jbool true => "True".data
  | .jbool false => "False".data
  | .jnum n => (toString n).data
  | .jarr l => pyRepr (.jarr l)
  | .jobj l => pyRepr (.jobj l)

/-- Escape a character for `json.dumps` (`ensure_ascii=False`). -/
def jsonDumpEsc (c : Char) : Str :=
  if c = '\\' then ['\\', '\\']
  else if c = '"' then ['\\', '"']
  else if c = '\n' then ['\\', 'n']
  else if c = '\r' then ['\\', 'r']
  else if c = '\t' then ['\\', 't']
  else if c.toNat < 32 then
    '\\' :: 'u' :: '0' :: '0' ::
      [(if c.toNat / 16 < 10 then Char.ofNat (48 + c.toNat / 16) else Char.ofNat (87 + c.toNat / 16)),
       (if c.toNat % 16 < 10 then Char.ofNat (48 + c.toNat % 16) else Char.ofNat (87 + c.toNat % 16))]
  else [c]

/-- Models `json.dumps(val, ensure_ascii=False)` with default separators. -/
def dumps (v : JVal) : Str :=
  match v with
  | .jnull => "null".data
  | .jbool true => "true".data
  | .jbool false => "false".data
  | .jnum n => (toString n).data
  | .jstr s => '"' :: (s.flatMap jsonDumpEsc ++ ['"'])
  | .jarr l =>
    '[' :: (List.intercalate ", ".data (l.attach.map (fun x => dumps x.1)) ++ [']'])
  | .jobj l =>
    '\x7b' :: (List.intercalate ", ".data
      (l.attach.map (fun x => dumps (.jstr x.1.1) ++ ": ".data ++ dumps x.1.2)) ++ ['\x7d'])
termination_by sizeOf v
decreasing_by
  all_goals first
    | (have hm := List.sizeOf_lt_of_mem x.2; simp_all; omega)
    | (obtain ⟨⟨k, w⟩, hx⟩ := x; have hm := List.sizeOf_lt_of_mem hx; simp_all; omega)

/-- Python dict access `val[k]` / `k in val` on a parsed object: the last
binding of a duplicated key wins, as in `json.loads`. -/
def objGet (k : Str) (l : List (Str × JVal)) : Option JVal :=
  (l.filter (fun p => p.1 = k)).getLast?.map (fun p => p.2)

/-- Models `"\n".join(str(x) for x in val if x)`. -/
def partsJoin (l : List JVal) : Str :=
  List.intercalate "\n".data ((l.filter jTruthy).map pyStr)

/-- Models `re.sub(r"\\n", "\n", content)`. -/
def replEscNl : Str → Str
  | [] => []
  | '\\' :: 'n' :: rest => '\n' :: replEscNl rest
  | c :: rest => c :: replEscNl rest

/-- Models `re.sub(r"^\"|\"$", "", text)`: strip a leading quote, and a quote
at the very end or just before a single trailing newline. -/
def stripOuterQuotes (s : Str) : Str :=
  let s1 := match s with
    | '"' :: rest => rest
    | _ => s
  match s1.reverse with
  | '"' :: r => r.reverse
  | '\n' :: '"' :: r => ('\n' :: r).reverse
  | _ => s1

/-- Content resolution of `extract_messages_json` (src/app.py lines 351-372):
`json.loads` the matched content and coalesce string / list / `parts` /
`text` shapes; on parse failure, un-escape `\n` and strip outer quotes. -/
def contentToText (content : Str) : Str :=
  match json_loads content with
  | some v =>
    match v with
    | .jstr s => s
    | .jarr l => partsJoin l
    | .jobj l =>
      match objGet "parts".data l with
      | some (.jarr parts) => partsJoin parts
      | _ =>
        match objGet "text".data l with
        | some tv => pyStr tv
        | none => dumps (.jobj l)
    | other => pyStr other
  | none => stripOuterQuotes (replEscNl content)

/-- The `finditer` loop of `extract_messages_json` over one script body:
collect `(role, normalized text)` for every match, skipping empty texts. -/
def jsonMsgsLoopGo : Nat → Str → List (Str × Str)
  | 0, _ => []
  | _, [] => []
  | fuel + 1, c :: rest =>
    match msgAt (c :: rest) with
    | some (role, content, e) =>
      let text := normalizeText (contentToText content)
      if text = [] then jsonMsgsLoopGo fuel ((c :: rest).drop e)
      else (role, text) :: jsonMsgsLoopGo fuel ((c :: rest).drop e)
    | none => jsonMsgsLoopGo fuel rest

def jsonMsgsLoop (sc : Str) : List (Str × Str) := jsonMsgsLoopGo (sc.length + 1) sc

/-- Per-script extraction: the coarse role probe, then the message loop. -/
def scriptMsgs (sc : Str) : List (Str × Str) :=
  if hasRoleProbe sc then jsonMsgsLoop sc else []

/-- Models `extract_messages_json` of src/app.py (lines 335-376). -/
def extract_messages_json (raw : Str) : List (Str × Str) :=
  (findScripts raw).flatMap scriptMsgs

/-- Models `extract_messages_any` of src/app.py (lines 378-389): anchors
first (accepted at ≥ 2), then the plain-text heuristic (accepted at ≥ 2; its
`AttributeError` propagates), then the JSON strategy as final fallback. -/
def extract_messages_any (raw : Str) : Option (List (Str × Str)) :=
  let a := extract_messages_html raw
  if 2 ≤ a.length then some a
  else
    match extract_messages_plain raw with
    | none => none
    | some b =>
      if 2 ≤ b.length then some b
      else some (extract_messages_json raw)

/-- The streaming read loop of `_read_text` (src/app.py lines 236-250): empty
chunks are skipped, each chunk is buffered and counted, and once the count
exceeds the byte ceiling a `ValueError` is raised (modelled as `none`). -/
def readBodyGo (maxBytes : Nat) (acc : List (List Nat)) (total : Nat) :
    List (List Nat) → Option (List Nat)
  | [] => some acc.join
  | c :: rest =>
    if c.isEmpty then readBodyGo maxBytes acc total rest
    else
      if maxBytes < total + c.length then none
      else readBodyGo maxBytes (acc ++ [c]) (total + c.length) rest

/-- Models `_read_text`: stream the body with the byte ceiling, then decode
the joined bytes (`decode` stands for `bytes.decode(enc, errors="replace")`,
which is total). -/
def _read_text (decode : List Nat → Str) (maxBytes : Nat)
    (chunks : List (List Nat)) : Option Str :=
  (readBodyGo maxBytes [] 0 chunks).map decode

/-- Total streamed size of a chunk list. -/
def sumLen (l : List (List Nat)) : Nat := (l.map List.length).sum

/-- ASCII lower-casing of a character (Python `str.lower` on the hostname
strings handled by `_host_ok`). -/
def lowerChar (c : Char) : Char := Char.ofNat (lowerN c.toNat)

def pyLower (s : Str) : Str := s.map lowerChar

/-- IPv4 octet: 1-3 digits, no leading zero, value ≤ 255. -/
def parseOctet (s : Str) : Option Nat :=
  if s ≠ [] ∧ s.length ≤ 3 ∧ s.all (fun c => (decDigit c).isSome) ∧
      (s.length = 1 ∨ s.getD 0 ' ' ≠ '0') then
    match digitsToNat 10 decDigit s with
    | some n => if n ≤ 255 then some n else none
    | none => none
  else none

/-- Models `ipaddress.IPv4Address` parsing to a 32-bit value. -/
def parseIPv4 (s : Str) : Option Nat :=
  match s.splitOn '.' with
  | [a, b, c, d] =>
    match parseOctet a, parseOctet b, parseOctet c, parseOctet d with
    | some x, some y, some z, some w => some (((x * 256 + y) * 256 + z) * 256 + w)
    | _, _, _, _ => none
  | _ => none

/-- Position of the first `::` in an IPv6 literal. -/
def findDColon : Str → Option Nat
  | [] => none
  | ':' :: ':' :: _ => some 0
  | _ :: rest => (findDColon rest).map (· + 1)

/-- IPv6 hextet: 1-4 hex digits. -/
def parseHexGroup (s : Str) : Option Nat :=
  if s ≠ [] ∧ s.length ≤ 4 ∧ s.all (fun c => (hexDigit c).isSome) then
    digitsToNat 16 hexDigit s
  else none

/-- Colon-separated hextet list; when `allowV4` an embedded dotted-quad may
stand in the final position (two hextets). -/
def parseG6 (allowV4 : Bool) : List Str → Option (List Nat)
  | [] => some []
  | [g] =>
    if allowV4 ∧ g.contains '.' then
      (parseIPv4 g).map (fun n => [n / 65536, n % 65536])
    else (parseHexGroup g).map (fun n => [n])
  | g :: rest =>
    match parseHexGroup g, parseG6 allowV4 rest with
    | some n, some l => some (n :: l)
    | _, _ => none

def wordsToNat (l : List Nat) : Nat := l.foldl (fun acc w => acc * 65536 + w) 0

/-- Models `ipaddress.IPv6Address` parsing to a 128-bit value (standard
hextet groups, one optional `::`, optional embedded IPv4 tail). -/
def parseIPv6 (s : Str) : Option Nat :=
  match findDColon s with
  | none =>
    match parseG6 true (s.splitOn ':') with
    | some ws => if ws.length = 8 then some (wordsToNat ws) else none
    | none => none
  | some i =>
    let before := s.take i
    let after := s.drop (i + 2)
    if (findDColon after).isSome then none
    else
      match (if before.isEmpty then some [] else parseG6 false (before.splitOn ':')),
            (if after.isEmpty then some [] else parseG6 true (after.splitOn ':')) with
      | some b, some a =>
        if b.length + a.length ≤ 7 then
          some (wordsToNat (b ++ (List.replicate (8 - b.length - a.length) 0 ++ a)))
        else none
      | _, _ => none

inductive IPAddr where
  | v4 : Nat → IPAddr
  | v6 : Nat → IPAddr
deriving DecidableEq

/-- Models `ipaddress.ip_address(ip)`; `none` is the raised `ValueError`. -/
def ip_address (s : Str) : Option IPAddr :=
  if s.contains ':' then (parseIPv6 s).map IPAddr.v6 else (parseIPv4 s).map IPAddr.v4

/-- A network is `(isV6, base, prefixLen)`. -/
def inNet (a : IPAddr) (net : Bool × Nat × Nat) : Bool :=
  match a, net with
  | .v4 n, (false, base, pre) => n / 2 ^ (32 - pre) = base / 2 ^ (32 - pre)
  | .v6 n, (true, base, pre) => n / 2 ^ (128 - pre) = base / 2 ^ (128 - pre)
  | _, _ => false

/-- Models `PRIVATE_NETS` of src/app.py (lines 184-194): membership testing
across IP versions is `False`, as in `ipaddress`. -/
def PRIVATE_NETS : List (Bool × Nat × Nat) :=
  [(false, 0, 8),
   (false, 10 * 2 ^ 24, 8),
   (false, 127 * 2 ^ 24, 8),
   (false, (169 * 256 + 254) * 2 ^ 16, 16),
   (false, (172 * 256 + 16) * 2 ^ 16, 12),
   (false, (192 * 256 + 168) * 2 ^ 16, 16),
   (true, 1, 128),
   (true, 252 * 2 ^ 120, 7),
   (true, (254 * 256 + 128) * 2 ^ 112, 10)]

/-- Models `_is_ip_private` of src/app.py (lines 196-201): parse failures
count as private (the `except` branch returns `True`). -/
def _is_ip_private (ip : Str) : Bool :=
  match ip_address ip with
  | some a => PRIVATE_NETS.any (fun net => inNet a net)
  | none => true

/-- Models `_host_ok` of src/app.py (lines 203-215).  `resolve` is the
`socket.getaddrinfo` oracle: `none` models a raised exception, `some ips` the
set of resolved address strings. -/
def _host_ok (allowedHosts : Option (List Str)) (resolve : Str → Option (List Str))
    (host : Str) : Bool :=
  let h := pyStrip (pyLower host)
  if h = [] then false
  else if h = "localhost".data ∨ h = "localhost.".data ∨ h = "ip6-localhost".data then false
  else if (match allowedHosts with
           | some ah => decide (h ∉ ah)
           | none => false) then false
  else
    match resolve h with
    | none => false
    | some ips => if ips = [] then false else !(ips.any _is_ip_private)

theorem readBodyGo_ok (chunks : List (List Nat)) :
    ∀ (acc : List (List Nat)) (total maxBytes : Nat),
      total + sumLen chunks ≤ maxBytes →
      readBodyGo maxBytes acc total chunks = some (acc.join ++ chunks.join) := by
  induction chunks with
  | nil => intro acc total maxBytes _; simp [readBodyGo]
  | cons c rest ih =>
    intro acc total maxBytes hle
    have hsum : sumLen (c :: rest) = c.length + sumLen rest := by
      simp [sumLen]
    by_cases hc : c.isEmpty
    · have hcnil : c = [] := List.isEmpty_iff.mp hc
      rw [readBodyGo, if_pos hc, ih acc total maxBytes (by subst hcnil; simpa [sumLen] using hle)]
      simp [hcnil]
    · have hnot : ¬ maxBytes < total + c.length := by omega
      rw [readBodyGo, if_neg hc, if_neg hnot,
        ih (acc ++ [c]) (total + c.length) maxBytes (by omega)]
      simp

theorem readBodyGo_none (chunks : List (List Nat)) :
    ∀ (acc : List (List Nat)) (total maxBytes : Nat),
      maxBytes < total + sumLen chunks → total ≤ maxBytes →
      readBodyGo maxBytes acc total chunks = none := by
  induction chunks with
  | nil =>
    intro acc total maxBytes hlt hle
    exact absurd hlt (by simp [sumLen]; omega)
  | cons c rest ih =>
    intro acc total maxBytes hlt hle
    have hsum : sumLen (c :: rest) = c.length + sumLen rest := by
      simp [sumLen]
    by_cases hc : c.isEmpty
    · have hcnil : c = [] := List.isEmpty_iff.mp hc
      rw [readBodyGo, if_pos hc]
      exact ih acc total maxBytes (by subst hcnil; simpa [sumLen] using hlt) hle
    · by_cases hover : maxBytes < total + c.length
      · rw [readBodyGo, if_neg hc, if_pos hover]
      · rw [readBodyGo, if_neg hc, if_neg hover]
        exact ih (acc ++ [c]) (total + c.length) maxBytes (by omega) (by omega)

theorem sumLen_crossing (l : List (List Nat)) :
    ∀ m : Nat, m < sumLen l →
      ∃ k, k < l.length ∧ sumLen (l.take k) ≤ m ∧ m < sumLen (l.take (k + 1)) ∧
        sumLen (l.take (k + 1)) ≤ m + (l.getD k []).length := by
  induction l with
  | nil => intro m hm; exact absurd hm (by simp [sumLen])
  | cons c rest ih =>
    intro m hm
    have hsum : sumLen (c :: rest) = c.length + sumLen rest := by simp [sumLen]
    by_cases hmc : m < c.length
    · refine ⟨0, by simp, by simp [sumLen], ?_, ?_⟩
      · simpa [sumLen] using hmc
      · have : sumLen (List.take 1 (c :: rest)) = c.length := by simp [sumLen]
        rw [this, List.getD_cons_zero]
        omega
    · obtain ⟨k, hk1, hk2, hk3, hk4⟩ := ih (m - c.length) (by omega)
      have ht : ∀ j, sumLen (List.take (j + 1) (c :: rest)) = c.length + sumLen (rest.take j) := by
        intro j; simp [sumLen]
      refine ⟨k + 1, ?_, ?_, ?_, ?_⟩
      · simp only [List.length_cons]; omega
      · rw [ht]; omega
      · rw [ht]; omega
      · rw [ht, List.getD_cons_succ]; omega

/-- Claim C4: reading a response body as a stream of chunks raises exactly
when the accumulated byte count exceeds the ceiling (buffering at most the
limit plus one chunk), and a body within the limit is returned in full and
decoded. -/
theorem read_text_bounded (decode : List Nat → Str) (maxBytes : Nat)
    (chunks : List (List Nat)) :
    (sumLen chunks ≤ maxBytes →
      _read_text decode maxBytes chunks = some (decode chunks.join)) ∧
    (maxBytes < sumLen chunks →
      _read_text decode maxBytes chunks = none ∧
      ∃ k, k < chunks.length ∧ sumLen (chunks.take k) ≤ maxBytes ∧
        maxBytes < sumLen (chunks.take (k + 1)) ∧
        sumLen (chunks.take (k + 1)) ≤ maxBytes + (chunks.getD k []).length) := by
  constructor
  · intro hle
    have h := readBodyGo_ok chunks [] 0 maxBytes (by omega)
    simp only [_read_text, h]
    simp
  · intro hgt
    refine ⟨?_, sumLen_crossing chunks maxBytes hgt⟩
    have h := readBodyGo_none chunks [] 0 maxBytes (by omega) (by omega)
    simp only [_read_text, h, Option.map_none']

theorem read_text_bounded_witness :
    _read_text (fun l => l.map (fun n => Char.ofNat n)) 5 [[104, 105], [33]] =
      some "hi!".data ∧
    _read_text (fun l => l.map (fun n => Char.ofNat n)) 5 [[104, 105], [33, 33, 33, 33]] = none := by
  constructor
  · have h := (read_text_bounded (fun l => l.map (fun n => Char.ofNat n)) 5
      [[104, 105], [33]]).1 (by decide)
    rw [h]
    rfl
  · exact ((read_text_bounded (fun l => l.map (fun n => Char.ofNat n)) 5
      [[104, 105], [33, 33, 33, 33]]).2 (by decide)).1

/-- Claim C3: a host that is a private-range IP literal (loopback, RFC1918,
link-local, or any other `PRIVATE_NETS` member) is rejected by `_host_ok`
under every allowed-hosts configuration — including ones listing the host —
for any resolver that resolves the literal to itself (possibly among other
addresses). -/
theorem host_check_blocks_private (allowed : Option (List Str))
    (resolve : Str → Option (List Str)) (host : Str) (ips : List Str)
    (hparse : (ip_address (pyStrip (pyLower host))).isSome)
    (hpriv : _is_ip_private (pyStrip (pyLower host)) = true)
    (hres : resolve (pyStrip (pyLower host)) = some ips)
    (hmem : pyStrip (pyLower host) ∈ ips) :
    _host_ok allowed resolve host = false := by
  simp only [_host_ok]
  split
  · rfl
  · split
    · rfl
    · split
      · rfl
      · rw [hres]
        simp only []
        split
        · rfl
        · have hany : ips.any _is_ip_private = true :=
            List.any_eq_true.mpr ⟨pyStrip (pyLower host), hmem, hpriv⟩
          rw [hany]
          rfl

theorem host_check_blocks_private_witness :
    _host_ok (some ["127.0.0.1".data])
      (fun s => if s = "127.0.0.1".data then some ["127.0.0.1".data] else none)
      "127.0.0.1".data = false ∧
    _host_ok none
      (fun s => if s = "169.254.169.254".data then some ["169.254.169.254".data] else none)
      "169.254.169.254".data = false ∧
    _host_ok (some ["10.0.0.7".data, "192.168.1.9".data])
      (fun s => some [s])
      "192.168.1.9".data = false := by
  refine ⟨?_, ?_, ?_⟩
  · exact host_check_blocks_private _ _ _ ["127.0.0.1".data]
      (by decide) (by decide) (by decide) (by decide)
  · exact host_check_blocks_private _ _ _ ["169.254.169.254".data]
      (by decide) (by decide) (by decide) (by decide)
  · exact host_check_blocks_private _ _ _ ["192.168.1.9".data]
      (by decide) (by decide) (by decide) (by decide)

/-- Claim C10: host validation fails closed — an empty host, a localhost
alias, a resolution failure (exception or empty address list), or a resolved
address that does not parse as an IP all make `_host_ok` return `false`. -/
theorem host_check_fails_closed (allowed : Option (List Str))
    (resolve : Str → Option (List Str)) (host : Str)
    (h : pyStrip (pyLower host) = [] ∨
         pyStrip (pyLower host) = "localhost".data ∨
         pyStrip (pyLower host) = "localhost.".data ∨
         pyStrip (pyLower host) = "ip6-localhost".data ∨
         resolve (pyStrip (pyLower host)) = none ∨
         resolve (pyStrip (pyLower host)) = some [] ∨
         (∃ ips ip, resolve (pyStrip (pyLower host)) = some ips ∧ ip ∈ ips ∧
            ip_address ip = none)) :
    _host_ok allowed resolve host = false := by
  simp only [_host_ok]
  split
  · rfl
  · rename_i h1
    split
    · rfl
    · rename_i h2
      split
      · rfl
      · rcases h with h | h | h | h | h | h | ⟨ips, ip, hres, hmem, hip⟩
        · exact absurd h h1
        · exact absurd (Or.inl h) h2
        · exact absurd (Or.inr (Or.inl h)) h2
        · exact absurd (Or.inr (Or.inr h)) h2
        · rw [h]
        · rw [h]
          rfl
        · rw [hres]
          simp only []
          split
          · rfl
          · have hpriv : _is_ip_private ip = true := by
              simp [_is_ip_private, hip]
            have hany : ips.any _is_ip_private = true :=
              List.any_eq_true.mpr ⟨ip, hmem, hpriv⟩
            rw [hany]
            rfl

theorem host_check_fails_closed_witness :
    _host_ok none (fun _ => some ["8.8.8.8".data]) "LOCALHOST ".data = false ∧
    _host_ok (some ["example.com".data]) (fun _ => none) "example.com".data = false ∧
    _host_ok none (fun _ => some ["93.184.216.34".data, "bogus".data])
      "example.com".data = false := by
  refine ⟨?_, ?_, ?_⟩
  · exact host_check_fails_closed _ _ _ (Or.inr (Or.inl (by decide)))
  · exact host_check_fails_closed _ _ _
      (Or.inr (Or.inr (Or.inr (Or.inr (Or.inl (by decide))))))
  · exact host_check_fails_closed _ _ _
      (Or.inr (Or.inr (Or.inr (Or.inr (Or.inr (Or.inr
        ⟨["93.184.216.34".data, "bogus".data], "bogus".data,
          by decide, by decide, by decide⟩))))))

/-- Claim C1 (amended): the orchestrator runs the anchor strategy first and
accepts at ≥ 2 messages; otherwise it runs the heuristic text strategy and
accepts at ≥ 2 (a heuristic exception aborts extraction); only then does it
run the Embedded-JSON strategy, whose result is returned as-is (possibly
empty).  (The spec's claimed order — JSON before heuristic text, with a
1-message JSON threshold — does not match the code.) -/
theorem orchestrator_order (raw : Str) :
    (2 ≤ (extract_messages_html raw).length →
      extract_messages_any raw = some (extract_messages_html raw)) ∧
    ((extract_messages_html raw).length < 2 → extract_messages_plain raw = none →
      extract_messages_any raw = none) ∧
    ((extract_messages_html raw).length < 2 →
      ∀ b, extract_messages_plain raw = some b → 2 ≤ b.length →
        extract_messages_any raw = some b) ∧
    ((extract_messages_html raw).length < 2 →
      ∀ b, extract_messages_plain raw = some b → b.length < 2 →
        extract_messages_any raw = some (extract_messages_json raw)) := by
  refine ⟨?_, ?_, ?_, ?_⟩
  · intro h
    simp only [extract_messages_any]
    rw [if_pos h]
  · intro h1 h2
    simp only [extract_messages_any]
    rw [if_neg (by omega), h2]
  · intro h1 b hb h2
    simp only [extract_messages_any]
    rw [if_neg (by omega), hb]
    simp [h2]
  · intro h1 b hb h2
    simp only [extract_messages_any]
    rw [if_neg (by omega), hb]
    simp only []
    rw [if_neg (by omega)]

/-- Document refuting the claimed orchestrator order: no anchors, a JSON
script with one message, and plain text with two big blocks. -/
def c1Doc : Str :=
  "<script>\x7b\"role\":\"assistant\",\"content\":\"hello\"\x7d</script><p>aaaaaaaaaaaaaaaaaaaaaaaaaaaaaa</p>\n\n<p>bbbbbbbbbbbbbbbbbbbbbbbbbbbbbb</p>".data

/-- Claim C1, counterexample: on `c1Doc` the anchor strategy yields nothing
and the JSON strategy yields one message, so under the claimed order the
pipeline would return the JSON result; the code instead returns the heuristic
text result. -/
theorem orchestrator_order_counterexample :
    extract_messages_html c1Doc = [] ∧
    1 ≤ (extract_messages_json c1Doc).length ∧
    extract_messages_any c1Doc ≠ some (extract_messages_json c1Doc) ∧
    extract_messages_any c1Doc = extract_messages_plain c1Doc := by decide

def c1Witness : Str :=
  "<div data-message-author-role=\"user\">hello there friend</div><div data-message-author-role=\"assistant\">hi there pal</div>".data

theorem orchestrator_order_witness :
    extract_messages_any c1Witness = some (extract_messages_html c1Witness) :=
  (orchestrator_order c1Witness).1 (by decide)

theorem msgHeadAt_role (s role : Str) (p : Nat)
    (h : msgHeadAt s = some (role, p)) :
    role = "user".data ∨ role = "assistant".data := by
  unfold msgHeadAt at h
  simp only [] at h
  split at h
  · split at h
    · split at h
      · exact Or.inl (by cases h; rfl)
      · split at h
        · exact Or.inr (by cases h; rfl)
        · exact absurd h (by simp)
    · exact absurd h (by simp)
  · exact absurd h (by simp)

theorem msgAt_role (s role content : Str) (e : Nat)
    (h : msgAt s = some (role, content, e)) :
    role = "user".data ∨ role = "assistant".data := by
  unfold msgAt at h
  split at h
  · exact absurd h (by simp)
  · rename_i role' p hhead
    split at h
    · rename_i r hc
      cases h
      exact msgHeadAt_role s role p hhead
    · exact absurd h (by simp)

set_option maxHeartbeats 2000000 in
theorem jsonMsgsLoopGo_inv :
    ∀ (fuel : Nat) (sc r t : Str), (r, t) ∈ jsonMsgsLoopGo fuel sc →
      (r = "user".data ∨ r = "assistant".data) ∧ t ≠ [] := by
  intro fuel
  induction fuel with
  | zero => intro sc r t h; simp [jsonMsgsLoopGo] at h
  | succ fuel ih =>
    intro sc r t h
    match sc with
    | [] => simp [jsonMsgsLoopGo] at h
    | c :: rest =>
      rw [jsonMsgsLoopGo] at h
      split at h
      · rename_i role content e hmsg
        simp only [] at h
        generalize htx : normalizeText (contentToText content) = tx at h
        split at h
        · exact ih _ r t h
        · rename_i htext
          rcases List.mem_cons.mp h with heq | hmem
          · injection heq with hr ht
            subst hr
            subst ht
            exact ⟨msgAt_role _ _ _ _ hmsg, htext⟩
          · exact ih _ r t hmem
      · exact ih _ r t h

theorem jsonMsgs_inv (raw r t : Str) (h : (r, t) ∈ extract_messages_json raw) :
    (r = "user".data ∨ r = "assistant".data) ∧ t ≠ [] := by
  simp only [extract_messages_json, List.mem_flatMap] at h
  obtain ⟨sc, _, hmem⟩ := h
  simp only [scriptMsgs] at hmem
  split at hmem
  · exact jsonMsgsLoopGo_inv _ _ r t hmem
  · simp at hmem

/-- Claim C6 (amended): the Embedded-JSON strategy recognizes only message
objects whose role field is exactly the string "user" or "assistant", and
emits that string verbatim; an object with any other role value (e.g.
"system" or "tool") is skipped entirely, not emitted as a user message. -/
theorem json_role_values (raw r t : Str)
    (h : (r, t) ∈ extract_messages_json raw) :
    r = "user".data ∨ r = "assistant".data :=
  (jsonMsgs_inv raw r t h).1

def c6Doc : Str :=
  "<script>\x7b\"role\":\"system\",\"content\":\"be nice dude\"\x7d</script>".data

/-- Claim C6, counterexample: a script message object whose role is "system"
yields nothing at all — the claim would have it emitted as a user message. -/
theorem json_role_values_counterexample :
    extract_messages_json c6Doc = [] ∧
    extract_messages_json c6Doc ≠ [("user".data, "be nice dude".data)] := by decide

def c6WitnessDoc : Str :=
  "<script>\x7b\"role\":\"assistant\",\"content\":\"ok fine\"\x7d</script>".data

theorem json_role_values_witness :
    ("assistant".data, "ok fine".data) ∈ extract_messages_json c6WitnessDoc ∧
    ("assistant".data = "user".data ∨ "assistant".data = "assistant".data) :=
  ⟨by decide, json_role_values c6WitnessDoc "assistant".data "ok fine".data (by decide)⟩

/-- Deduplication by the pair `(role, text)` keeping first occurrences — the
operation the specification *claims* the Embedded-JSON strategy performs on
its final list. -/
def dedupePairsGo : Nat → List (Str × Str) → List (Str × Str)
  | 0, _ => []
  | _, [] => []
  | fuel + 1, x :: xs => x :: dedupePairsGo fuel (xs.filter (fun y => y ≠ x))

def dedupePairs (l : List (Str × Str)) : List (Str × Str) :=
  dedupePairsGo (l.length + 1) l

theorem dedupePairsGo_irrel :
    ∀ (f1 f2 : Nat) (l : List (Str × Str)), l.length < f1 → l.length < f2 →
      dedupePairsGo f1 l = dedupePairsGo f2 l := by
  intro f1
  induction f1 with
  | zero => intro f2 l h1 _; omega
  | succ f1 ih =>
    intro f2 l h1 h2
    match f2, l with
    | f2 + 1, [] => rfl
    | f2 + 1, x :: xs =>
      have hf := List.length_filter_le (fun y => y ≠ x) xs
      simp only [List.length_cons] at h1 h2
      simp only [dedupePairsGo]
      rw [ih f2 (xs.filter (fun y => y ≠ x)) (by omega) (by omega)]

theorem dedupePairs_cons (x : Str × Str) (xs : List (Str × Str)) :
    dedupePairs (x :: xs) = x :: dedupePairs (xs.filter (fun y => y ≠ x)) := by
  have hf := List.length_filter_le (fun y => y ≠ x) xs
  simp only [dedupePairs, List.length_cons, dedupePairsGo]
  rw [dedupePairsGo_irrel (xs.length + 1) ((xs.filter (fun y => y ≠ x)).length + 1)
    (xs.filter (fun y => y ≠ x)) (by omega) (by omega)]

theorem dedupePairs_append_self (l : List (Str × Str)) :
    dedupePairs (l ++ l) = dedupePairs l := by
  have : ∀ n (l : List (Str × Str)), l.length ≤ n → dedupePairs (l ++ l) = dedupePairs l := by
    intro n
    induction n with
    | zero =>
      intro l h
      have : l = [] := List.eq_nil_of_length_eq_zero (by omega)
      subst this
      rfl
    | succ n ih =>
      intro l h
      match l with
      | [] => rfl
      | x :: xs =>
        have hfilter : (xs ++ x :: xs).filter (fun y => y ≠ x) =
            xs.filter (fun y => y ≠ x) ++ xs.filter (fun y => y ≠ x) := by
          rw [List.filter_append]
          simp [List.filter_cons]
        calc dedupePairs ((x :: xs) ++ x :: xs)
            = x :: dedupePairs ((xs ++ x :: xs).filter (fun y => y ≠ x)) := by
              rw [List.cons_append, dedupePairs_cons]
          _ = x :: dedupePairs (xs.filter (fun y => y ≠ x) ++ xs.filter (fun y => y ≠ x)) := by
              rw [hfilter]
          _ = x :: dedupePairs (xs.filter (fun y => y ≠ x)) := by
              rw [ih _ (le_trans (List.length_filter_le _ _) (by simp at h; omega))]
          _ = dedupePairs (x :: xs) := (dedupePairs_cons x xs).symm
  exact this l.length l (Nat.le_refl _)

/-- Claim C5 (amended): the Embedded-JSON strategy performs no deduplication —
duplicate `(role, text)` pairs are kept.  For a document whose script blocks
split compositionally under self-concatenation, extracting the doubled
document yields the messages twice, and only after an external dedupe by
`(role, text)` does the doubled run agree with the deduped single run (not
with the raw single run, which may itself contain duplicates). -/
theorem json_no_dedupe (doc : Str)
    (h : findScripts (doc ++ doc) = findScripts doc ++ findScripts doc) :
    extract_messages_json (doc ++ doc) =
      extract_messages_json doc ++ extract_messages_json doc ∧
    dedupePairs (extract_messages_json (doc ++ doc)) =
      dedupePairs (extract_messages_json doc) := by
  have h1 : extract_messages_json (doc ++ doc) =
      extract_messages_json doc ++ extract_messages_json doc := by
    simp only [extract_messages_json, h, List.flatMap_append]
  exact ⟨h1, by rw [h1, dedupePairs_append_self]⟩

def c5Script : Str :=
  "<script>\x7b\"role\":\"user\",\"content\":\"hi there\"\x7d</script>".data

def c5Doc : Str := c5Script ++ c5Script

/-- Claim C5, counterexample: the strategy's output on `c5Doc` contains the
same `(role, text)` pair twice — it is not deduplicated — and deduping the
doubled document's output differs from the plain output on `c5Doc`, so the
claimed round-trip equation fails. -/
theorem json_no_dedupe_counterexample :
    extract_messages_json c5Doc =
      [("user".data, "hi there".data), ("user".data, "hi there".data)] ∧
    dedupePairs (extract_messages_json (c5Doc ++ c5Doc)) ≠ extract_messages_json c5Doc := by
  decide

theorem json_no_dedupe_witness :
    extract_messages_json (c5Script ++ c5Script) =
      extract_messages_json c5Script ++ extract_messages_json c5Script ∧
    dedupePairs (extract_messages_json (c5Script ++ c5Script)) =
      dedupePairs (extract_messages_json c5Script) :=
  json_no_dedupe c5Script (by decide)

theorem plainLoop_cons_keep (b : Str) (rest : List (Option Str)) (role : Str)
    (h : ¬(pyStrip b = [] ∨ (pyStrip b).length < 8))
    (ha : hasAssistantKw (pyStrip b) = false) (hu : hasUserKw (pyStrip b) = false) :
    plainLoop (some b :: rest) role =
      (plainLoop rest (toggleRole role)).map (fun tl => (role, pyStrip b) :: tl) := by
  simp only [plainLoop]
  rw [if_neg h, ha, hu]
  simp only [Bool.false_eq_true, if_false]
  cases plainLoop rest (toggleRole role) <;> rfl

theorem toggleRole_user : toggleRole "user".data = "assistant".data := by decide

theorem toggleRole_assistant : toggleRole "assistant".data = "user".data := by decide

/-- Claim C7 (amended): for ASCII, entity-free input (where the embedding's
regex character classes coincide with CPython's), when the normalized text
also reaches the whole-text length floor of 50, a separator-free text of
exactly 3 blank-line blocks, each at least 8 characters after stripping and
containing no role keyword, yields roles user, assistant, user; and whenever
the strategy returns a result at all, that result is either empty or holds
at least 2 messages.  (Without the 50-character floor the 3-block case
instead returns empty.) -/
theorem heuristic_alternation :
    (∀ (raw b1 b2 b3 : Str),
      asciiNoAmp raw = true →
      ¬(_strip_html raw = [] ∨ (_strip_html raw).length < 50) →
      sepSplit true (_strip_html raw) = [some (_strip_html raw)] →
      blankSplit (_strip_html raw) = [b1, b2, b3] →
      ¬(pyStrip b1 = [] ∨ (pyStrip b1).length < 8) →
      ¬(pyStrip b2 = [] ∨ (pyStrip b2).length < 8) →
      ¬(pyStrip b3 = [] ∨ (pyStrip b3).length < 8) →
      hasAssistantKw (pyStrip b1) = false → hasUserKw (pyStrip b1) = false →
      hasAssistantKw (pyStrip b2) = false → hasUserKw (pyStrip b2) = false →
      hasAssistantKw (pyStrip b3) = false → hasUserKw (pyStrip b3) = false →
      extract_messages_plain raw = some
        [("user".data, pyStrip b1), ("assistant".data, pyStrip b2),
         ("user".data, pyStrip b3)]) ∧
    (∀ (raw : Str) (l : List (Str × Str)), extract_messages_plain raw = some l →
      l = [] ∨ 2 ≤ l.length) := by
  constructor
  · intro raw b1 b2 b3 _ hlen hsep hblank h1 h2 h3 k1a k1u k2a k2u k3a k3u
    unfold extract_messages_plain plainBlocks
    generalize htxt : _strip_html raw = txt at hlen hsep hblank ⊢
    rw [if_neg hlen, hsep, hblank]
    simp only [List.length_singleton]
    rw [if_pos (by omega)]
    simp only [List.map_cons, List.map_nil]
    rw [plainLoop_cons_keep b1 _ _ h1 k1a k1u, toggleRole_user,
      plainLoop_cons_keep b2 _ _ h2 k2a k2u, toggleRole_assistant,
      plainLoop_cons_keep b3 _ _ h3 k3a k3u, toggleRole_user]
    simp only [plainLoop, Option.map_some', Option.map_none']
    rfl
  · intro raw l h
    unfold extract_messages_plain at h
    generalize htxt : _strip_html raw = txt at h
    split at h
    · cases h
      exact Or.inl rfl
    · split at h
      · exact absurd h (by simp)
      · rename_i results hres
        cases h
        split
        · rename_i hge
          exact Or.inr (by simpa using hge)
        · exact Or.inl rfl

def c7Doc : Str := "aaaaaaaaa\n\nbbbbbbbbb\n\nccccccccc".data

/-- Claim C7, counterexample: three blank-line-separated blocks, each of
length 9 (exceeding the 8-character block floor) and free of role keywords,
yet the strategy returns the empty list — the whole normalized text is
shorter than the 50-character floor the claim omits. -/
theorem heuristic_alternation_counterexample :
    blankSplit (_strip_html c7Doc) =
      ["aaaaaaaaa".data, "bbbbbbbbb".data, "ccccccccc".data] ∧
    (∀ b ∈ blankSplit (_strip_html c7Doc), 8 ≤ (pyStrip b).length ∧
      hasAssistantKw (pyStrip b) = false ∧ hasUserKw (pyStrip b) = false) ∧
    extract_messages_plain c7Doc = some [] ∧
    extract_messages_plain c7Doc ≠ some
      [("user".data, "aaaaaaaaa".data), ("assistant".data, "bbbbbbbbb".data),
       ("user".data, "ccccccccc".data)] := by decide

def c7WitnessDoc : Str :=
  "The weather today is quite sunny overall.\n\nYes indeed, very sunny and also warm.\n\nGreat, thanks a lot for that update.".data

theorem heuristic_alternation_witness :
    extract_messages_plain c7WitnessDoc = some
      [("user".data, pyStrip "The weather today is quite sunny overall.".data),
       ("assistant".data, pyStrip "Yes indeed, very sunny and also warm.".data),
       ("user".data, pyStrip "Great, thanks a lot for that update.".data)] :=
  heuristic_alternation.1 c7WitnessDoc
    "The weather today is quite sunny overall.".data
    "Yes indeed, very sunny and also warm.".data
    "Great, thanks a lot for that update.".data
    (by decide) (by decide) (by decide) (by decide) (by decide) (by decide)
    (by decide) (by decide) (by decide) (by decide) (by decide) (by decide)
    (by decide)

/-- Case-sensitive substring occurrence. -/
def hasSub (pat s : Str) : Bool :=
  (List.range (s.length + 1)).any (fun i => litAt pat (s.drop i))

/-- Case-insensitive substring occurrence. -/
def containsCI (pat s : Str) : Bool :=
  (List.range (s.length + 1)).any (fun i => ciAt pat (s.drop i))

theorem litAt_drop_hasSub (pat s : Str) (k : Nat) (hpat : pat ≠ [])
    (h : litAt pat (s.drop k) = true) : hasSub pat s = true := by
  by_cases hk : k ≤ s.length
  · exact List.any_eq_true.mpr ⟨k, List.mem_range.mpr (by omega), h⟩
  · rw [List.drop_eq_nil_of_le (by omega)] at h
    match pat, hpat with
    | p :: ps, _ => simp [litAt] at h

theorem ciAt_drop_containsCI (pat s : Str) (k : Nat) (hpat : pat ≠ [])
    (h : ciAt pat (s.drop k) = true) : containsCI pat s = true := by
  by_cases hk : k ≤ s.length
  · exact List.any_eq_true.mpr ⟨k, List.mem_range.mpr (by omega), h⟩
  · rw [List.drop_eq_nil_of_le (by omega)] at h
    match pat, hpat with
    | p :: ps, _ => simp [ciAt] at h

theorem suffix_eq_drop {t s : Str} (h : t <:+ s) : t = s.drop (s.length - t.length) := by
  obtain ⟨u, rfl⟩ := h
  have : (u ++ t).length - t.length = u.length := by simp
  rw [this, List.drop_left]

theorem hasSub_suffix (pat : Str) {t s : Str} (hts : t <:+ s) (hpat : pat ≠ [])
    (h : hasSub pat s = false) : hasSub pat t = false := by
  by_contra hc
  have hc' := Bool.of_not_eq_false hc
  obtain ⟨i, _, hi⟩ := List.any_eq_true.mp hc'
  rw [suffix_eq_drop hts, List.drop_drop] at hi
  rw [litAt_drop_hasSub pat s _ hpat hi] at h
  exact absurd h (by simp)

theorem containsCI_suffix (pat : Str) {t s : Str} (hts : t <:+ s) (hpat : pat ≠ [])
    (h : containsCI pat s = false) : containsCI pat t = false := by
  by_contra hc
  have hc' := Bool.of_not_eq_false hc
  obtain ⟨i, _, hi⟩ := List.any_eq_true.mp hc'
  rw [suffix_eq_drop hts, List.drop_drop] at hi
  rw [ciAt_drop_containsCI pat s _ hpat hi] at h
  exact absurd h (by simp)

theorem charToNat_inj {a b : Char} (h : a.toNat = b.toNat) : a = b :=
  Char.eq_of_val_eq (UInt32.ext h)

theorem ciAt_lt_head (c : Char) (ps cs : Str) (hne : c ≠ '<') :
    ciAt ('<' :: ps) (c :: cs) = false := by
  have hc : c.toNat ≠ 60 := fun hna => hne (charToNat_inj hna)
  have he : eqCI '<' c = false := by
    unfold eqCI
    rw [show Char.toNat '<' = 60 from by decide]
    apply decide_eq_false
    intro heq
    unfold lowerN at heq
    split at heq
    · omega
    · split at heq
      · omega
      · omega
  simp [ciAt, he]

theorem stripBlocksGo_id (ps ct : Str) :
    ∀ (fuel : Nat) (s : Str), s.length < fuel → (∀ c ∈ s, c ≠ '<') →
      stripBlocksGo ('<' :: ps) ct fuel s = s := by
  intro fuel
  induction fuel with
  | zero => intro s h _; omega
  | succ fuel ih =>
    intro s hlen hs
    match s with
    | [] => rfl
    | c :: rest =>
      have hc : ciAt ('<' :: ps) (c :: rest) = false :=
        ciAt_lt_head c ps rest (hs c (by simp))
      rw [stripBlocksGo, hc]
      simp only [Bool.false_eq_true, if_false]
      rw [ih rest (by simp only [List.length_cons] at hlen; omega)
        (fun x hx => hs x (by simp [hx]))]

theorem stripTagsGo_id :
    ∀ (fuel : Nat) (s : Str), s.length < fuel → (∀ c ∈ s, c ≠ '<') →
      stripTagsGo fuel s = s := by
  intro fuel
  induction fuel with
  | zero => intro s h _; omega
  | succ fuel ih =>
    intro s hlen hs
    match s with
    | [] => rfl
    | c :: rest =>
      rw [stripTagsGo, if_neg (hs c (by simp))]
      rw [ih rest (by simp only [List.length_cons] at hlen; omega)
        (fun x hx => hs x (by simp [hx]))]

theorem unescapeGo_id :
    ∀ (fuel : Nat) (s : Str), s.length < fuel → (∀ c ∈ s, c ≠ '&') →
      unescapeGo fuel s = s := by
  intro fuel
  induction fuel with
  | zero => intro s h _; omega
  | succ fuel ih =>
    intro s hlen hs
    match s with
    | [] => rfl
    | c :: rest =>
      rw [unescapeGo, if_neg (hs c (by simp))]
      rw [ih rest (by simp only [List.length_cons] at hlen; omega)
        (fun x hx => hs x (by simp [hx]))]

theorem normNewlinesGo_id :
    ∀ (fuel : Nat) (s : Str), s.length < fuel → (∀ c ∈ s, c ≠ '\r') →
      normNewlinesGo fuel s = s := by
  intro fuel
  induction fuel with
  | zero => intro s h _; omega
  | succ fuel ih =>
    intro s hlen hs
    match s with
    | [] => rfl
    | c :: rest =>
      rw [normNewlinesGo, if_neg (hs c (by simp))]
      rw [ih rest (by simp only [List.length_cons] at hlen; omega)
        (fun x hx => hs x (by simp [hx]))]

theorem collapseSpacesGo_id :
    ∀ (fuel : Nat) (s : Str), s.length < fuel → (∀ c ∈ s, c ≠ '\t') →
      hasSub "  ".data s = false → collapseSpacesGo fuel s = s := by
  intro fuel
  induction fuel with
  | zero => intro s h _ _; omega
  | succ fuel ih =>
    intro s hlen hs hsub
    match s with
    | [] => rfl
    | c :: rest =>
      have hrest : hasSub "  ".data rest = false :=
        hasSub_suffix _ (List.suffix_cons c rest) (by simp) hsub
      have hlen' : rest.length < fuel := by simp only [List.length_cons] at hlen; omega
      have hsrest : ∀ x ∈ rest, x ≠ '\t' := fun x hx => hs x (by simp [hx])
      by_cases hsp : isSpTab c
      · have hcsp : c = ' ' := by
          have halt : c = ' ' ∨ c = '\t' := by simpa [isSpTab] using hsp
          rcases halt with h1 | h1
          · exact h1
          · exact absurd h1 (hs c (by simp))
        have hdw : rest.dropWhile isSpTab = rest := by
          match rest with
          | [] => rfl
          | c2 :: r2 =>
            have hc2 : isSpTab c2 = false := by
              by_contra hcon
              have hc2' := Bool.of_not_eq_false hcon
              have : c2 = ' ' := by
                have halt : c2 = ' ' ∨ c2 = '\t' := by simpa [isSpTab] using hc2'
                rcases halt with h1 | h1
                · exact h1
                · exact absurd h1 (hs c2 (by simp))
              have : litAt "  ".data ((c :: c2 :: r2).drop 0) = true := by
                subst hcsp
                subst this
                simp [litAt]
              rw [litAt_drop_hasSub "  ".data (c :: c2 :: r2) 0 (by simp) this] at hsub
              exact absurd hsub (by simp)
            exact List.dropWhile_cons_of_neg (by simp [hc2])
        rw [collapseSpacesGo, if_pos hsp, hdw, ih rest hlen' hsrest hrest, hcsp]
      · rw [collapseSpacesGo, if_neg hsp, ih rest hlen' hsrest hrest]

theorem collapseNl3Go_id :
    ∀ (fuel : Nat) (s : Str), s.length < fuel →
      hasSub "\n\n\n".data s = false → collapseNl3Go fuel s = s := by
  intro fuel
  induction fuel with
  | zero => intro s h _; omega
  | succ fuel ih =>
    intro s hlen hsub
    match s with
    | [] => rfl
    | c :: rest =>
      have hrest : hasSub "\n\n\n".data rest = false :=
        hasSub_suffix _ (List.suffix_cons c rest) (by simp) hsub
      have hlen' : rest.length < fuel := by simp only [List.length_cons] at hlen; omega
      by_cases hc : c = '\n'
      · have hrun : ¬ 2 ≤ (rest.takeWhile (fun x => x = '\n')).length := by
          intro hge
          match rest with
          | [] => simp at hge
          | c2 :: r2 =>
            by_cases hc2 : c2 = '\n'
            · match r2 with
              | [] => simp [List.takeWhile, hc2] at hge
              | c3 :: r3 =>
                by_cases hc3 : c3 = '\n'
                · have : litAt "\n\n\n".data ((c :: c2 :: c3 :: r3).drop 0) = true := by
                    subst hc; subst hc2; subst hc3
                    simp [litAt]
                  rw [litAt_drop_hasSub "\n\n\n".data (c :: c2 :: c3 :: r3) 0 (by simp) this]
                    at hsub
                  exact absurd hsub (by simp)
                · simp [List.takeWhile, hc2, hc3] at hge
            · simp [List.takeWhile, hc2] at hge
        rw [collapseNl3Go, if_pos hc]
        simp only [if_neg hrun]
        have hdrop : (rest.dropWhile (fun x => x = '\n')).length < fuel :=
          Nat.lt_of_le_of_lt ((List.dropWhile_suffix _).length_le) hlen'
        rw [ih (rest.dropWhile (fun x => x = '\n')) hdrop
          (hasSub_suffix _ ((List.dropWhile_suffix _).trans (List.suffix_cons c rest))
            (by simp) hsub)]
        rw [hc, List.cons_append, List.takeWhile_append_dropWhile]
      · rw [collapseNl3Go, if_neg hc, ih rest hlen' hrest]

theorem litAt_head_mem (p : Char) (ps t : Str) (h : litAt (p :: ps) t = true) :
    p ∈ t := by
  match t with
  | [] => simp [litAt] at h
  | c :: ts =>
    simp only [litAt, Bool.and_eq_true, decide_eq_true_eq] at h
    rw [h.1]
    exact List.mem_cons_self c ts

theorem tryCSays_none (s : Str) (h : ∀ c ∈ s, c ≠ '说') : tryCSays s = none := by
  unfold tryCSays
  split
  · simp only []
    split
    · rename_i hlit
      exfalso
      have hm : '说' ∈ (s.drop (7 + ((s.drop 7).takeWhile isPyWs).length)) :=
        litAt_head_mem _ _ _ hlit
      exact h '说' (List.drop_subset _ s hm) rfl
    · rfl
  · rfl

theorem removeCSaysGo_id :
    ∀ (fuel : Nat) (s : Str), s.length < fuel → (∀ c ∈ s, c ≠ '说') →
      removeCSaysGo fuel s = s := by
  intro fuel
  induction fuel with
  | zero => intro s h _; omega
  | succ fuel ih =>
    intro s hlen hs
    match s with
    | [] => rfl
    | c :: rest =>
      rw [removeCSaysGo, tryCSays_none (c :: rest) hs]
      rw [ih rest (by simp only [List.length_cons] at hlen; omega)
        (fun x hx => hs x (by simp [hx]))]

theorem ciAt_nonempty_false_of_nil (pat : Str) (hpat : pat ≠ []) :
    ciAt pat [] = false := by
  match pat, hpat with
  | p :: ps, _ => rfl

theorem tryNoise_none (pat s : Str) (hpat : pat ≠ [])
    (h : containsCI pat s = false) : tryNoise pat s = none := by
  unfold tryNoise
  simp only []
  split
  · rename_i hci
    exfalso
    rw [ciAt_drop_containsCI pat s _ hpat hci] at h
    exact absurd h (by simp)
  · rfl

theorem rnlGo_id (pat : Str) (hpat : pat ≠ []) :
    ∀ (fuel : Nat) (atStart : Bool) (s : Str), s.length < fuel →
      containsCI pat s = false → rnlGo pat fuel atStart s = s := by
  intro fuel
  induction fuel with
  | zero => intro atStart s h _; omega
  | succ fuel ih =>
    intro atStart s hlen hs
    match s with
    | [] => rfl
    | c :: rest =>
      have hrest : containsCI pat rest = false :=
        containsCI_suffix pat (List.suffix_cons c rest) hpat hs
      have hlen' : rest.length < fuel := by simp only [List.length_cons] at hlen; omega
      rw [rnlGo]
      by_cases hst : atStart
      · rw [if_pos hst, tryNoise_none pat (c :: rest) hpat hs,
          ih (c = '\n') rest hlen' hrest]
      · rw [if_neg hst, ih (c = '\n') rest hlen' hrest]

theorem takeWhile_nil_head (q : Char → Bool) (s : Str)
    (h : ∀ c, s.head? = some c → q c = false) : s.takeWhile q = [] := by
  match s with
  | [] => rfl
  | c :: rest =>
    rw [List.takeWhile_cons, h c rfl]
    simp

theorem dropWhile_self (q : Char → Bool) (s : Str) (h : s.takeWhile q = []) :
    s.dropWhile q = s := by
  match s with
  | [] => rfl
  | c :: rest =>
    rw [List.takeWhile_cons] at h
    split at h
    · exact absurd h (by simp)
    · rename_i hq
      exact List.dropWhile_cons_of_neg (by simpa using hq)

theorem pyStrip_id (s : Str) (h1 : s.takeWhile isPyWs = [])
    (h2 : s.reverse.takeWhile isPyWs = []) : pyStrip s = s := by
  unfold pyStrip
  rw [dropWhile_self _ _ h1, dropWhile_self _ _ h2, List.reverse_reverse]

theorem stripSet_id (cs : List Char) (s : Str)
    (h1 : s.takeWhile (fun c => cs.contains c) = [])
    (h2 : s.reverse.takeWhile (fun c => cs.contains c) = []) : stripSet cs s = s := by
  unfold stripSet
  rw [dropWhile_self _ _ h1, dropWhile_self _ _ h2, List.reverse_reverse]

/-- Fully-normalized ("clean") text: free of markup, entities, collapsible
whitespace, surrounding whitespace (per the full `str.strip()` character
set, `isPyWs`) and the UI-noise phrases the normalizer removes.  Every
condition matches one pass of `_strip_html`/`_post_clean`.  The last four
conditions exclude the characters ı (U+0131), İ (U+0130), ſ (U+017F) and
the Kelvin sign (U+212A), the only ones CPython's `re.IGNORECASE` folds
onto ASCII letters — on text containing them the noise-phrase regexes can
match where the ASCII-case-folding `containsCI` reports no occurrence. -/
def CleanText (s : Str) : Prop :=
  '&' ∉ s ∧ '<' ∉ s ∧ '>' ∉ s ∧ '\t' ∉ s ∧ '\r' ∉ s ∧ '说' ∉ s ∧
  hasSub "  ".data s = false ∧ hasSub "\n\n\n".data s = false ∧
  s.takeWhile isPyWs = [] ∧ s.reverse.takeWhile isPyWs = [] ∧
  containsCI "复制链接".data s = false ∧ containsCI "open in chatgpt".data s = false ∧
  containsCI "copy link".data s = false ∧ containsCI "regenerate".data s = false ∧
  containsCI "模型:".data s = false ∧ containsCI "model:".data s = false ∧
  'İ' ∉ s ∧ 'ı' ∉ s ∧ 'ſ' ∉ s ∧ 'K' ∉ s

instance (s : Str) : Decidable (CleanText s) := by
  unfold CleanText
  infer_instance

theorem strip_html_id (s : Str) (h : CleanText s) : _strip_html s = s := by
  obtain ⟨h1, h2, h3, h4, h5, h6, h7, h8, h9, h10, _⟩ := h
  have hlt : ∀ c ∈ s, c ≠ '<' := fun c hc he => h2 (he ▸ hc)
  unfold _strip_html stripBlocks stripTags unescape normNewlines collapseSpaces collapseNl3
  simp only []
  rw [stripBlocksGo_id ['s', 'c', 'r', 'i', 'p', 't']
      ['<', '/', 's', 'c', 'r', 'i', 'p', 't', '>'] _ s (by omega) hlt,
    stripBlocksGo_id ['s', 't', 'y', 'l', 'e']
      ['<', '/', 's', 't', 'y', 'l', 'e', '>'] _ s (by omega) hlt,
    stripTagsGo_id _ s (by omega) hlt,
    unescapeGo_id _ s (by omega) (fun c hc he => h1 (he ▸ hc)),
    normNewlinesGo_id _ s (by omega) (fun c hc he => h5 (he ▸ hc)),
    collapseSpacesGo_id _ s (by omega) (fun c hc he => h4 (he ▸ hc)) h7,
    collapseNl3Go_id _ s (by omega) h8,
    pyStrip_id s h9 h10]

theorem post_clean_id (s : Str) (h : CleanText s) : _post_clean s = s := by
  obtain ⟨h1, h2, h3, h4, h5, h6, h7, h8, h9, h10, h11, h12, h13, h14, h15, h16, _, _, _, _⟩ := h
  have hset1 : s.takeWhile (fun c => [' ', '<', '>'].contains c) = [] := by
    apply takeWhile_nil_head
    intro c hc
    have hcs : ¬ isPyWs c := by
      match s, hc with
      | c :: rest, rfl =>
        rw [List.takeWhile_cons] at h9
        split at h9
        · exact absurd h9 (by simp)
        · rename_i hq
          simpa using hq
    have hmem : c ∈ s := by
      match s, hc with
      | c :: rest, rfl => exact List.mem_cons_self c rest
    simp only [List.contains, List.elem_cons, List.elem_nil]
    have hc1 : c ≠ ' ' := fun he => hcs (by rw [he]; decide)
    have hc2 : c ≠ '<' := fun he => h2 (he ▸ hmem)
    have hc3 : c ≠ '>' := fun he => h3 (he ▸ hmem)
    simp [BEq.beq, hc1, hc2, hc3]
  have hset2 : s.reverse.takeWhile (fun c => [' ', '<', '>'].contains c) = [] := by
    apply takeWhile_nil_head
    intro c hc
    have hcs : ¬ isPyWs c := by
      match hr : s.reverse, hc with
      | c :: rest, rfl =>
        rw [hr, List.takeWhile_cons] at h10
        split at h10
        · exact absurd h10 (by simp)
        · rename_i hq
          simpa using hq
    have hmem : c ∈ s := by
      match hr : s.reverse, hc with
      | c :: rest, rfl =>
        have : c ∈ s.reverse := by rw [hr]; exact List.mem_cons_self c rest
        simpa using this
    have hc1 : c ≠ ' ' := fun he => hcs (by rw [he]; decide)
    have hc2 : c ≠ '<' := fun he => h2 (he ▸ hmem)
    have hc3 : c ≠ '>' := fun he => h3 (he ▸ hmem)
    simp only [List.contains, List.elem_cons, List.elem_nil]
    simp [BEq.beq, hc1, hc2, hc3]
  unfold _post_clean removeCSays rnl
  simp only []
  rw [removeCSaysGo_id _ s (by omega) (fun c hc he => h6 (he ▸ hc)),
    rnlGo_id _ (by simp) _ _ s (by omega) h11,
    rnlGo_id _ (by simp) _ _ s (by omega) h12,
    rnlGo_id _ (by simp) _ _ s (by omega) h13,
    rnlGo_id _ (by simp) _ _ s (by omega) h14,
    rnlGo_id _ (by simp) _ _ s (by omega) h15,
    rnlGo_id _ (by simp) _ _ s (by omega) h16,
    stripSet_id _ s hset1 hset2, pyStrip_id s h9 h10]

/-- Claim C8 (amended): the normalizer is a no-op on text already in fully
normalized clean form (no entities, no angle brackets, no tabs or carriage
returns, no collapsible whitespace runs, trimmed of every `str.strip()`
whitespace character, free of the UI-noise phrases and of the four
characters `re.IGNORECASE` folds onto ASCII).  It is not idempotent in
general: each pass decodes HTML entities once, so text like `&amp;lt;`
changes on every pass. -/
theorem normalize_idempotent_on_clean (s : Str) (h : CleanText s) :
    normalizeText s = s := by
  unfold normalizeText
  rw [strip_html_id s h, post_clean_id s h]

/-- Claim C8, counterexample: normalization is not idempotent — `&amp;lt;`
normalizes to `&lt;`, which normalizes again to the empty string. -/
theorem normalize_not_idempotent :
    normalizeText (normalizeText "&amp;lt;".data) ≠ normalizeText "&amp;lt;".data := by
  decide

theorem normalize_idempotent_on_clean_witness :
    CleanText "hello there".data ∧ normalizeText "hello there".data = "hello there".data :=
  ⟨by decide, normalize_idempotent_on_clean "hello there".data (by decide)⟩

theorem findMarker_spec (raw : Str) (pos i : Nat) (r : Str) (e : Nat)
    (h : findMarker raw pos = some (i, r, e)) :
    pos ≤ i ∧ i < raw.length ∧ roleMarkerAt raw i = some (r, e) ∧
      ∀ j, pos ≤ j → j < i → roleMarkerAt raw j = none := by
  unfold findMarker at h
  split at h
  · exact absurd h (by simp)
  · rename_i i0 hfif
    split at h
    · rename_i r0 e0 hrole
      cases h
      obtain ⟨h1, h2, h3, h4⟩ := firstIdxFrom_spec _ _ _ _ hfif
      refine ⟨h1, h2, hrole, fun j hj1 hj2 => ?_⟩
      have := h4 j hj1 hj2
      cases hro : roleMarkerAt raw j
      · rfl
      · rw [hro] at this
        simp at this
    · exact absurd h (by simp)

theorem findMarker_intro (raw : Str) (pos i : Nat) (r : Str) (e : Nat)
    (h1 : pos ≤ i) (h2 : i < raw.length) (h3 : roleMarkerAt raw i = some (r, e))
    (h4 : ∀ j, pos ≤ j → j < i → roleMarkerAt raw j = none) :
    findMarker raw pos = some (i, r, e) := by
  unfold findMarker
  rw [firstIdxFrom_intro raw.length _ pos i h1 h2 (by rw [h3]; rfl)
    (fun j hj1 hj2 => by rw [h4 j hj1 hj2]; rfl)]
  simp [h3]

theorem findMarker_none_intro (raw : Str) (pos : Nat)
    (h : ∀ j, pos ≤ j → j < raw.length → roleMarkerAt raw j = none) :
    findMarker raw pos = none := by
  unfold findMarker
  rw [firstIdxFrom_none_intro raw.length _ pos
    (fun j hj1 hj2 => by rw [h j hj1 hj2]; rfl)]

theorem findMarker_none_spec (raw : Str) (pos : Nat)
    (h : findMarker raw pos = none) :
    ∀ j, pos ≤ j → j < raw.length → roleMarkerAt raw j = none := by
  intro j hj1 hj2
  unfold findMarker at h
  split at h
  · rename_i hfif
    have := firstIdxFrom_none _ _ _ hfif j hj1 hj2
    cases hro : roleMarkerAt raw j
    · rfl
    · rw [hro] at this
      simp at this
  · rename_i x hfif
    split at h
    · exact absurd h (by simp)
    · rename_i hrole
      obtain ⟨h1, h2, h3, h4⟩ := firstIdxFrom_spec _ _ _ _ hfif
      rw [hrole] at h3
      simp at h3

theorem findMarker_ge_none (raw : Str) (pos : Nat) (h : raw.length ≤ pos) :
    findMarker raw pos = none :=
  findMarker_none_intro raw pos (fun j hj1 hj2 => by omega)

theorem roleMarkerAt_end (s : Str) (i : Nat) (r : Str) (e : Nat)
    (h : roleMarkerAt s i = some (r, e)) : i + 31 ≤ e := by
  unfold roleMarkerAt at h
  simp only [] at h
  split at h
  · split at h
    · cases h
      omega
    · split at h
      · cases h
        omega
      · exact absurd h (by simp)
  · exact absurd h (by simp)

theorem findGt_spec (raw : Str) (j g : Nat) (h : findGt raw j = some g) :
    j ≤ g ∧ g < raw.length :=
  have hs := firstIdxFrom_spec _ _ _ _ h
  ⟨hs.1, hs.2.1⟩

theorem markerOccsFrom_eq (raw : Str) (pos : Nat) :
    markerOccsFrom raw pos =
      match findMarker raw pos with
      | none => []
      | some (i, r, e) => (i, r, e) :: markerOccsFrom raw (i + 1) := by
  split
  · rename_i hfm
    have hnone := findMarker_none_spec raw pos hfm
    unfold markerOccsFrom
    rw [List.filterMap_eq_nil]
    intro j hj
    have hjlt : j < raw.length := List.mem_range.mp hj
    by_cases hple : pos ≤ j
    · rw [if_pos hple, hnone j hple hjlt]
      rfl
    · rw [if_neg hple]
  · rename_i i r e hfm
    obtain ⟨h1, h2, h3, h4⟩ := findMarker_spec raw pos i r e hfm
    unfold markerOccsFrom
    have hsplit : List.range raw.length =
        List.range' 0 i ++ List.range' i (raw.length - i) := by
      rw [List.range_eq_range']
      have happ := List.range'_append 0 i (raw.length - i) 1
      simp only [Nat.zero_add, Nat.one_mul] at happ
      rw [happ]
      congr 1
      omega
    have hsplit' : List.range raw.length =
        List.range' 0 (i + 1) ++ List.range' (i + 1) (raw.length - i - 1) := by
      rw [List.range_eq_range']
      have happ := List.range'_append 0 (i + 1) (raw.length - i - 1) 1
      simp only [Nat.zero_add, Nat.one_mul] at happ
      rw [happ]
      congr 1
      omega
    have hstep : List.range' i (raw.length - i) =
        i :: List.range' (i + 1) (raw.length - i - 1) := by
      have hx : raw.length - i = (raw.length - i - 1) + 1 := by omega
      rw [hx, List.range'_succ]
      simp
    conv_lhs => rw [hsplit]
    rw [List.filterMap_append]
    conv_lhs => rw [hstep]
    have hild : ∀ (q : Nat),
        (List.range' 0 q).filterMap (fun j =>
          if q ≤ j then (roleMarkerAt raw j).map (fun x => (j, x.1, x.2)) else none) = [] := by
      intro q
      rw [List.filterMap_eq_nil]
      intro j hj
      have : j < q := by
        have := List.mem_range'_1.mp hj
        omega
      rw [if_neg (by omega)]
    have hleft : (List.range' 0 i).filterMap (fun j =>
        if pos ≤ j then (roleMarkerAt raw j).map (fun x => (j, x.1, x.2)) else none) = [] := by
      rw [List.filterMap_eq_nil]
      intro j hj
      have hji : j < i := by
        have := List.mem_range'_1.mp hj
        omega
      by_cases hple : pos ≤ j
      · rw [if_pos hple, h4 j hple hji]
        rfl
      · rw [if_neg hple]
    rw [hleft, List.nil_append, List.filterMap_cons]
    rw [if_pos h1, h3]
    simp only [Option.map_some']
    congr 1
    rw [hsplit', List.filterMap_append, hild (i + 1), List.nil_append]
    apply List.filterMap_congr
    intro j hj
    have hjge : i + 1 ≤ j := by
      have := List.mem_range'_1.mp hj
      omega
    rw [if_pos (by omega), if_pos hjge]

theorem extractLoopGo_stop (raw : Str) (fuel pos : Nat)
    (h : findMarker raw pos = none) : extractLoopGo raw fuel pos = [] := by
  match fuel with
  | 0 => rfl
  | fuel + 1 =>
    rw [extractLoopGo, h]

theorem anchorSpec_length (raw : Str) :
    ∀ l : List (Nat × Str × Nat), (anchorSpec raw l).length = l.length := by
  intro l
  induction l with
  | nil => rfl
  | cons x rest ih =>
    obtain ⟨i, r, e⟩ := x
    simp only [anchorSpec, List.length_cons, ih]

theorem anchorSpec_roles (raw : Str) :
    ∀ l : List (Nat × Str × Nat),
      (anchorSpec raw l).map Prod.fst = l.map (fun o => o.2.1) := by
  intro l
  induction l with
  | nil => rfl
  | cons x rest ih =>
    obtain ⟨i, r, e⟩ := x
    simp only [anchorSpec, List.map_cons, ih]

theorem anchorSpec_single (raw : Str) (i : Nat) (r : Str) (e : Nat) :
    anchorSpec raw [(i, r, e)] =
      [(r, normalizeText (pySlice raw ((findGt raw e).getD e + 1) raw.length))] := rfl

theorem anchorSpec_cons2 (raw : Str) (i : Nat) (r : Str) (e i' : Nat) (r' : Str)
    (e' : Nat) (rest : List (Nat × Str × Nat)) :
    anchorSpec raw ((i, r, e) :: (i', r', e') :: rest) =
      (r, normalizeText (pySlice raw ((findGt raw e).getD e + 1) i')) ::
        anchorSpec raw ((i', r', e') :: rest) := rfl

theorem extractLoopGo_eq (raw : Str) :
    ∀ (fuel pos : Nat), raw.length < fuel + pos →
      wfOccs raw (markerOccsFrom raw pos) = true →
      extractLoopGo raw fuel pos =
        (anchorSpec raw (markerOccsFrom raw pos)).filter (fun p => !p.2.isEmpty) := by
  intro fuel
  induction fuel with
  | zero =>
    intro pos hlen _
    have hfm : findMarker raw pos = none := findMarker_ge_none raw pos (by omega)
    rw [markerOccsFrom_eq, hfm]
    rfl
  | succ fuel ih =>
    intro pos hlen hwf
    cases hfm : findMarker raw pos with
    | none =>
      rw [extractLoopGo, markerOccsFrom_eq raw pos, hfm]
      rfl
    | some x =>
      obtain ⟨i, role, e⟩ := x
      have hocc : markerOccsFrom raw pos = (i, role, e) :: markerOccsFrom raw (i + 1) := by
        rw [markerOccsFrom_eq raw pos, hfm]
      obtain ⟨hp1, hp2, hp3, hp4⟩ := findMarker_spec raw pos i role e hfm
      have hend := roleMarkerAt_end raw i role e hp3
      rw [hocc] at hwf
      cases hT : markerOccsFrom raw (i + 1) with
      | nil =>
        rw [hT] at hwf
        unfold wfOccs at hwf
        cases hgt : findGt raw e with
        | none =>
          rw [hgt] at hwf
          simp at hwf
        | some g =>
          obtain ⟨hg1, hg2⟩ := findGt_spec raw e g hgt
          have hfm1 : findMarker raw (i + 1) = none := by
            cases hf1 : findMarker raw (i + 1) with
            | none => rfl
            | some y =>
              obtain ⟨i2, r2, e2⟩ := y
              have h5 := markerOccsFrom_eq raw (i + 1)
              rw [hf1, hT] at h5
              simp at h5
          have hmono : findMarker raw (g + 1) = none :=
            findMarker_none_intro raw (g + 1)
              (fun j hj1 hj2 => findMarker_none_spec raw (i + 1) hfm1 j (by omega) hj2)
          rw [extractLoopGo, hfm]
          simp only []
          rw [hocc, hT, hgt]
          simp only [Option.getD_some]
          rw [show nextStop raw (g + 1) = raw.length from by unfold nextStop; rw [hmono]]
          rw [anchorSpec_single, hgt]
          simp only [Option.getD_some]
          generalize htx : normalizeText (pySlice raw (g + 1) raw.length) = tx
          rw [extractLoopGo_stop raw fuel raw.length (findMarker_ge_none raw _ (by omega))]
          by_cases hemp : tx = []
          · simp [hemp, List.filter_cons]
          · simp [hemp, List.filter_cons, List.isEmpty_iff.not.mpr hemp]
      | cons y T' =>
        obtain ⟨i', r', e'⟩ := y
        rw [hT] at hwf
        unfold wfOccs at hwf
        cases hgt : findGt raw e with
        | none =>
          rw [hgt] at hwf
          simp at hwf
        | some g =>
          rw [hgt] at hwf
          simp only [Bool.and_eq_true, decide_eq_true_eq] at hwf
          obtain ⟨hgi, hwf'⟩ := hwf
          obtain ⟨hg1, hg2⟩ := findGt_spec raw e g hgt
          have h5 := markerOccsFrom_eq raw (i + 1)
          rw [hT] at h5
          cases hf1 : findMarker raw (i + 1) with
          | none =>
            rw [hf1] at h5
            simp at h5
          | some y2 =>
            obtain ⟨i2, r2, e2⟩ := y2
            rw [hf1] at h5
            simp only [List.cons.injEq, Prod.mk.injEq] at h5
            obtain ⟨⟨hi2, hr2, he2⟩, hT'⟩ := h5
            subst hi2
            subst hr2
            subst he2
            obtain ⟨hq1, hq2, hq3, hq4⟩ := findMarker_spec raw (i + 1) i' r' e' hf1
            have hfmg : findMarker raw (g + 1) = some (i', r', e') :=
              findMarker_intro raw (g + 1) i' r' e' (by omega) hq2 hq3
                (fun j hj1 hj2 => hq4 j (by omega) hj2)
            have hocc' : markerOccsFrom raw i' = (i', r', e') :: markerOccsFrom raw (i' + 1) := by
              rw [markerOccsFrom_eq raw i',
                findMarker_intro raw i' i' r' e' (Nat.le_refl _) hq2 hq3
                  (fun j hj1 hj2 => by omega)]
            have hih := ih i' (by omega) (by rw [hocc', ← hT']; exact hwf')
            rw [extractLoopGo, hfm]
            simp only []
            rw [hocc, hT, hgt]
            simp only [Option.getD_some]
            rw [show nextStop raw (g + 1) = i' from by unfold nextStop; rw [hfmg]]
            rw [anchorSpec_cons2, hgt]
            simp only [Option.getD_some]
            generalize htx : normalizeText (pySlice raw (g + 1) i') = tx
            rw [hih, hocc', ← hT']
            by_cases hemp : tx = []
            · simp [hemp, List.filter_cons]
            · simp [hemp, List.filter_cons, List.isEmpty_iff.not.mpr hemp]

/-- Claim C2 (amended): for ASCII, entity-free markup (where the embedding's
regex and `html.unescape` model coincides with CPython's) with N ≥ 2
well-formed role-marker occurrences (each marker's enclosing tag closed by a
later `>`, before the next marker begins) whose normalized spans are all
non-empty, the Anchor Strategy returns exactly N messages, in document
order, with roles matching the markers and each text the normalization of
the span running from just after the tag-closing `>` to the next marker (or
end of document).  (Without the non-empty-span proviso, spans that normalize
to nothing are dropped and fewer than N messages are returned.) -/
theorem anchor_exact (raw : Str)
    (hascii : asciiNoAmp raw = true)
    (hN : 2 ≤ (markerOccs raw).length)
    (hwf : wfOccs raw (markerOccs raw) = true)
    (hne : ∀ p ∈ anchorSpec raw (markerOccs raw), p.2 ≠ []) :
    extract_messages_html raw = anchorSpec raw (markerOccs raw) ∧
    (extract_messages_html raw).length = (markerOccs raw).length ∧
    (extract_messages_html raw).map Prod.fst = (markerOccs raw).map (fun o => o.2.1) := by
  unfold markerOccs at hwf hne ⊢
  have hmain := extractLoopGo_eq raw (raw.length + 1) 0 (by omega) hwf
  have hfeq : (anchorSpec raw (markerOccsFrom raw 0)).filter (fun p => !p.2.isEmpty) =
      anchorSpec raw (markerOccsFrom raw 0) :=
    List.filter_eq_self.mpr (fun p hp => by
      simpa [List.isEmpty_iff] using hne p hp)
  have h1 : extract_messages_html raw = anchorSpec raw (markerOccsFrom raw 0) := by
    rw [extract_messages_html, hmain, hfeq]
  exact ⟨h1, by rw [h1, anchorSpec_length], by rw [h1, anchorSpec_roles]⟩

def c2Doc : Str :=
  "<div data-message-author-role=\"user\">Copy link</div><div data-message-author-role=\"assistant\">hello world</div>".data

/-- Claim C2, counterexample: `c2Doc` carries N = 2 well-formed marker
occurrences, yet the Anchor Strategy returns only 1 message — the first
span normalizes to empty (its content is the UI-noise line "Copy link") and
is dropped, so the claimed "exactly N non-empty messages" fails. -/
theorem anchor_exact_counterexample :
    (markerOccs c2Doc).length = 2 ∧
    wfOccs c2Doc (markerOccs c2Doc) = true ∧
    (extract_messages_html c2Doc).length = 1 ∧
    extract_messages_html c2Doc = [("assistant".data, "hello world".data)] := by
  decide

def c2WitnessDoc : Str :=
  "<p data-message-author-role=\"USER\">alpha beta gamma</p><p data-message-author-role=\"assistant\">delta epsilon</p>".data

theorem anchor_exact_witness :
    extract_messages_html c2WitnessDoc = anchorSpec c2WitnessDoc (markerOccs c2WitnessDoc) ∧
    (extract_messages_html c2WitnessDoc).length = (markerOccs c2WitnessDoc).length ∧
    (extract_messages_html c2WitnessDoc).map Prod.fst =
      (markerOccs c2WitnessDoc).map (fun o => o.2.1) :=
  anchor_exact c2WitnessDoc (by decide) (by decide) (by decide) (by decide)
